import Mathlib

/-!
Shallow embedding of the Taiwan 16-tile Mahjong engine
(`backend/engine/{tiles,state,wall,deal,actions,win_validator,game_session,scorer}.py`
and `backend/ai/shanten.py`) together with proofs settling the frozen claims.

Conventions of the embedding:
* Python tile strings (`"5m"`, `"E"`, `"f3"`) become the inductive `Tile`.
* Python `list` becomes `List`; in-place mutation becomes explicit state passing.
* Python exceptions (`IndexError`, `ValueError` from `list.remove`, failed
  `assert`, `RuntimeError`) become `Option` results (`none` = the call raised).
* Python `set` iteration order is not deterministic; where the source iterates
  over `set(hand)` we iterate over `hand.dedup` (one representative per tile,
  deterministic).  All claim statements only depend on which actions exist,
  not on their order.
* Name mapping: leading underscores of private Python helpers are dropped
  (`_search` → `searchShanten`, `_find_decomposition` → `find_decomposition`,
  `_do_pong` → `do_pong`, ...).
-/

set_option maxHeartbeats 1000000
set_option maxRecDepth 100000

namespace Mahjong

/-! ### tiles.py -/

inductive Suit where
  | m | p | s
  deriving DecidableEq, Repr

/-- Tile identifiers.  `num su v` is the number tile `"{v}{su}"` (valid tiles
have `1 ≤ v ≤ 9`); `E S W N` are winds, `C F B` dragons, `flower i` is `"f{i}"`
(valid for `1 ≤ i ≤ 8`). -/
inductive Tile where
  | num (su : Suit) (v : Nat)
  | E | S | W | N | C | F | B
  | flower (i : Nat)
  deriving DecidableEq, Repr

instance : Inhabited Tile := ⟨Tile.E⟩

def WINDS : List Tile := [Tile.E, Tile.S, Tile.W, Tile.N]

def DRAGONS : List Tile := [Tile.C, Tile.F, Tile.B]

def HONORS : List Tile := WINDS ++ DRAGONS

def FLOWERS : List Tile := (List.range 8).map fun i => Tile.flower (i + 1)

def SEASON_FLOWERS : List Tile := (List.range 4).map fun i => Tile.flower (i + 1)

def PLANT_FLOWERS : List Tile := (List.range 4).map fun i => Tile.flower (i + 5)

/-- `build_full_deck`: 136 tiles, 4 copies each of the 34 non-flower kinds,
in the source's order (suits m,p,s with values 1..9, then honors). -/
def build_full_deck : List Tile :=
  ([Suit.m, Suit.p, Suit.s].flatMap fun su =>
    (List.range 9).flatMap fun v => List.replicate 4 (Tile.num su (v + 1)))
  ++ HONORS.flatMap fun h => List.replicate 4 h

/-- `build_flower_set`: the 8 distinct flower tiles. -/
def build_flower_set : List Tile := FLOWERS

def is_number_tile : Tile → Bool
  | Tile.num _ _ => true
  | _ => false

def is_honor_tile (t : Tile) : Bool := t ∈ HONORS

def is_flower_tile : Tile → Bool
  | Tile.flower _ => true
  | _ => false

def is_wind_tile (t : Tile) : Bool := t ∈ WINDS

def is_dragon_tile (t : Tile) : Bool := t ∈ DRAGONS

/-- `own_seat_flowers`: the season and plant flower bound to a seat. -/
def own_seat_flowers (seat : Nat) : List Tile :=
  [SEASON_FLOWERS.getD seat default, PLANT_FLOWERS.getD seat default]

/-! ### state.py -/

inductive MeldType where
  | chi | pong | open_kong | added_kong | concealed_kong
  deriving DecidableEq, Repr

structure Meld where
  type : MeldType
  tiles : List Tile
  fromPlayer : Option Nat
  deriving DecidableEq, Repr

structure Player where
  seat : Nat
  hand : List Tile
  melds : List Meld
  flowers : List Tile
  discards : List Tile
  isDealer : Bool
  streak : Nat
  deriving DecidableEq, Repr

instance : Inhabited Player := ⟨⟨0, [], [], [], [], false, 0⟩⟩

inductive Phase where
  | deal | flowerReplacement | play | win | draw
  deriving DecidableEq, Repr

inductive SubPhase where
  | activeTurn | claim
  deriving DecidableEq, Repr

inductive LastAction where
  | draw | replacementDraw | discard | chi | pong | openKong
  | addedKong | concealedKong | win | pass
  deriving DecidableEq, Repr

/-- Game-session state: the `GameState` dataclass fused with the private
session fields of `GameSession` (`_sub_phase`, `_pending_discard`, ...).
`round_number` and `tenpai_flags` are write-only in the sources relevant to
the claims and are omitted. -/
structure Session where
  players : List Player
  wall : List Tile
  wallBack : List Tile
  discardPool : List Tile
  currentPlayer : Nat
  roundWind : Tile
  dealerIndex : Nat
  lastDiscard : Option Tile
  lastAction : Option LastAction
  phase : Phase
  subPhase : SubPhase
  pendingDiscard : Option Tile
  pendingDiscarder : Option Nat
  justDrew : Bool
  afterKong : Bool
  passedPlayers : List Nat
  deriving DecidableEq, Repr

/-- `GameState.new_game` plus `GameSession.__init__`. -/
def new_game : Session where
  players := (List.range 4).map fun i =>
    { seat := i, hand := [], melds := [], flowers := [], discards := [],
      isDealer := i = 0, streak := 0 }
  wall := []
  wallBack := []
  discardPool := []
  currentPlayer := 0
  roundWind := Tile.E
  dealerIndex := 0
  lastDiscard := none
  lastAction := none
  phase := Phase.deal
  subPhase := SubPhase.activeTurn
  pendingDiscard := none
  pendingDiscarder := none
  justDrew := false
  afterKong := false
  passedPlayers := []

def getPlayer (s : Session) (i : Nat) : Player := s.players.getD i default

def setPlayer (s : Session) (i : Nat) (p : Player) : Session :=
  { s with players := s.players.set i p }

/-! ### actions.py -/

/-- Order-preserving deduplication (`if seq not in unique: unique.append(seq)`). -/
def dedupKeepFirst {α : Type} [DecidableEq α] (l : List α) : List α :=
  l.foldl (fun acc x => if x ∈ acc then acc else acc ++ [x]) []

/-- `get_chi_combinations`: all 3-tile sequences containing `discard`
completable with two tiles from `hand`. -/
def get_chi_combinations (hand : List Tile) (discard : Tile) : List (List Tile) :=
  match discard with
  | Tile.num suit v =>
    let combos := (List.range 3).filterMap fun off =>
      if v ≤ off ∨ 9 < v - off + 2 then none
      else
        let vals := [v - off, v - off + 1, v - off + 2]
        let needed := (vals.filter (· ≠ v)).map (Tile.num suit)
        if needed.all (· ∈ hand) then
          some (vals.map (Tile.num suit))
        else none
    dedupKeepFirst combos
  | _ => []

def validate_chi (hand : List Tile) (discard : Tile) : Bool :=
  (get_chi_combinations hand discard).length > 0

def validate_pong (hand : List Tile) (discard : Tile) : Bool :=
  hand.count discard ≥ 2

def validate_open_kong (hand : List Tile) (discard : Tile) : Bool :=
  hand.count discard ≥ 3

def validate_added_kong (melds : List Meld) (drawnTile : Tile) : Bool :=
  melds.any fun m => m.type = MeldType.pong ∧ drawnTile ∈ m.tiles

def validate_concealed_kong (hand : List Tile) (t : Tile) : Bool :=
  hand.count t ≥ 4

/-! ### win_validator.py -/

/-- `_tile_sort_key`: number tiles grouped by suit then value, honors after,
anything else (flowers) last. -/
def tile_sort_key : Tile → Nat
  | Tile.num Suit.m v => 0 * 10 + v
  | Tile.num Suit.p v => 1 * 10 + v
  | Tile.num Suit.s v => 2 * 10 + v
  | Tile.E => 30
  | Tile.S => 31
  | Tile.W => 32
  | Tile.N => 33
  | Tile.C => 34
  | Tile.F => 35
  | Tile.B => 36
  | Tile.flower _ => 99

def sortHand (hand : List Tile) : List Tile :=
  hand.mergeSort (fun a b => tile_sort_key a ≤ tile_sort_key b)

theorem length_erase3_lt {α : Type} [DecidableEq α] (l : List α) (a b c : α)
    (ha : a ∈ l) : (((l.erase a).erase b).erase c).length < l.length := by
  have h1 : (l.erase a).length = l.length - 1 := List.length_erase_of_mem ha
  have h0 : 0 < l.length := List.length_pos.mpr (List.ne_nil_of_mem ha)
  have h2 := (List.erase_sublist b (l.erase a)).length_le
  have h3 := (List.erase_sublist c ((l.erase a).erase b)).length_le
  omega

/-- `_decompose_sets`: split sorted `tiles` into exactly `setsNeeded` sets,
always consuming the first tile (triplet first, then sequence). -/
def decompose_sets (tiles : List Tile) (setsNeeded : Int)
    (found : List (List Tile)) : Option (List (List Tile)) :=
  if setsNeeded = 0 then
    if tiles = [] then some found else none
  else
    match h : tiles with
    | [] => none
    | first :: _ =>
      let tripletTry : Option (List (List Tile)) :=
        if tiles.count first ≥ 3 then
          decompose_sets (((tiles.erase first).erase first).erase first)
            (setsNeeded - 1) (found ++ [[first, first, first]])
        else none
      match tripletTry with
      | some r => some r
      | none =>
        match h2 : first with
        | Tile.num su v =>
          if v ≤ 7 then
            let t2 := Tile.num su (v + 1)
            let t3 := Tile.num su (v + 2)
            if t2 ∈ tiles ∧ t3 ∈ tiles then
              decompose_sets (((tiles.erase first).erase t2).erase t3)
                (setsNeeded - 1) (found ++ [[first, t2, t3]])
            else none
          else none
        | _ => none
termination_by tiles.length
decreasing_by
  all_goals first
  | (subst h; exact length_erase3_lt _ _ _ _ (List.mem_cons_self _ _))
  | (subst h2; subst h; exact length_erase3_lt _ _ _ _ (List.mem_cons_self _ _))

/-- `_find_decomposition`'s pair-extraction loop
(`for i, tile in enumerate(tiles): ...`). -/
def find_pair_loop (tiles : List Tile) (setsNeeded : Int) (i : Nat)
    (seen : List Tile) : Option (List (List Tile) × List Tile) :=
  if h : i < tiles.length then
    let tile := tiles.getD i default
    if tile ∈ seen then find_pair_loop tiles setsNeeded (i + 1) seen
    else if i + 1 < tiles.length ∧ tiles.getD (i + 1) default = tile then
      match decompose_sets (tiles.take i ++ tiles.drop (i + 2)) setsNeeded [] with
      | some r => some (r, [tile, tile])
      | none => find_pair_loop tiles setsNeeded (i + 1) (tile :: seen)
    else find_pair_loop tiles setsNeeded (i + 1) seen
  else none
termination_by tiles.length - i

/-- `_find_decomposition`: try extracting the pair at every candidate tile. -/
def find_decomposition (tiles : List Tile) (setsNeeded : Int) :
    Option (List (List Tile) × List Tile) :=
  if setsNeeded = 0 then
    match tiles with
    | [a, b] => if a = b then some ([], [a, b]) else none
    | _ => none
  else if (tiles.length : Int) ≠ setsNeeded * 3 + 2 then none
  else find_pair_loop tiles setsNeeded 0 []

/-- `decompose_hand`: sort, then backtrack for `5 - len(melds)` sets + pair. -/
def decompose_hand (hand : List Tile) (melds : List Meld) :
    Option (List (List Tile) × List Tile) :=
  find_decomposition (sortHand hand) (5 - (melds.length : Int))

def is_standard_win (hand : List Tile) (melds : List Meld) : Bool :=
  (decompose_hand hand melds).isSome

def is_bajian_guohai (flowers : List Tile) : Bool :=
  flowers.length = 8 ∧ (FLOWERS.all (· ∈ flowers) ∧ flowers.all (· ∈ FLOWERS))

def is_qiqiang_yi (flowers : List Tile) (incomingTile : Tile) : Bool :=
  if incomingTile ∉ FLOWERS then false
  else if flowers.length ≠ 7 then false
  else FLOWERS.all fun f => f ∈ flowers ∨ f = incomingTile

inductive WinType where
  | standard | bajianGuohai | qiqiangYi
  deriving DecidableEq, Repr

/-- `is_winning_hand`: all win conditions combined. -/
def is_winning_hand (hand : List Tile) (melds : List Meld) (flowers : List Tile)
    (winTile : Tile) (isFlowerSteal : Bool) : Option WinType :=
  if isFlowerSteal then
    if is_qiqiang_yi flowers winTile then some WinType.qiqiangYi else none
  else
    let flowerSet := flowers ++ (if winTile ∈ FLOWERS then [winTile] else [])
    if is_bajian_guohai flowerSet then some WinType.bajianGuohai
    else if is_standard_win (sortHand (hand ++ [winTile])) melds then
      some WinType.standard
    else none

/-! ### wall.py -/

def RESERVED_COUNT : Nat := 16

/-- `shuffle_and_build_wall` minus the shuffle (randomness is external: the
session is parameterised by the already-shuffled deck): split off the last
16 tiles as the back wall. -/
def build_wall (deck : List Tile) : List Tile × List Tile :=
  (deck.take (deck.length - RESERVED_COUNT), deck.drop (deck.length - RESERVED_COUNT))

/-- `draw_from_wall`: pop the head; `none` models the `IndexError`. -/
def draw_from_wall : List Tile → Option (Tile × List Tile)
  | [] => none
  | t :: rest => some (t, rest)

/-- `draw_from_back`: pop the head of the back wall. -/
def draw_from_back : List Tile → Option (Tile × List Tile)
  | [] => none
  | t :: rest => some (t, rest)

/-! ### deal.py -/

/-- Draw `n` tiles from the head of the wall, appending them to `hand`. -/
def draw_tiles (wall hand : List Tile) (n : Nat) : Option (List Tile × List Tile) :=
  if wall.length < n then none else some (hand ++ wall.take n, wall.drop n)

/-- One player's 4-tile pick of a dealing round (the body of the dealing
loop of `deal_initial_hands`). -/
def deal_round (st : List Player × List Tile) (pIdx : Nat) :
    Option (List Player × List Tile) := do
  let pl := st.1.getD pIdx default
  let (hand2, w2) ← draw_tiles st.2 pl.hand 4
  pure (st.1.set pIdx { pl with hand := hand2 }, w2)

/-- `deal_initial_hands`: 4 rounds of 4 tiles each, counter-clockwise from the
dealer, then one extra tile for the dealer. -/
def deal_initial_hands (dealer : Nat) (players : List Player) (wall : List Tile) :
    Option (List Player × List Tile) := do
  let order := (List.range 4).map fun i => (dealer + i) % 4
  let rounds := order ++ order ++ order ++ order
  let (ps, w) ← rounds.foldlM deal_round (players, wall)
  let (t, w3) ← draw_from_wall w
  let dpl := ps.getD dealer default
  some (ps.set dealer { dpl with hand := dpl.hand ++ [t] }, w3)

/-- `_replace_flowers_for_player`: move flowers out of the hand, draw the same
number of replacements from the back wall, repeat while flowers remain.
`none` models running out of back-wall tiles (`IndexError`). -/
def replace_flowers_for_player (back hand flowers : List Tile) :
    Option (List Tile × List Tile × List Tile) :=
  if hfl : hand.filter is_flower_tile = [] then some (back, hand, flowers)
  else
    if hlen : back.length < (hand.filter is_flower_tile).length then none
    else
      replace_flowers_for_player (back.drop (hand.filter is_flower_tile).length)
        ((hand.filter fun t => ! is_flower_tile t) ++ back.take (hand.filter is_flower_tile).length)
        (flowers ++ (hand.filter is_flower_tile).reverse)
termination_by back.length
decreasing_by
  have h1 : 0 < (hand.filter is_flower_tile).length := List.length_pos.mpr hfl
  simp only [List.length_drop]
  omega

/-- One player's flower replacement (the body of the loop of
`flower_replacement`). -/
def flower_round (st : List Player × List Tile) (pIdx : Nat) :
    Option (List Player × List Tile) := do
  let pl := st.1.getD pIdx default
  let (back2, hand2, fl2) ← replace_flowers_for_player st.2 pl.hand pl.flowers
  pure (st.1.set pIdx { pl with hand := hand2, flowers := fl2 }, back2)

/-- `flower_replacement`: process the four players dealer-first. -/
def flower_replacement (dealer : Nat) (players : List Player) (back : List Tile) :
    Option (List Player × List Tile) := do
  let order := (List.range 4).map fun i => (dealer + i) % 4
  order.foldlM flower_round (players, back)

/-! ### game_session.py -/

inductive ActionType where
  | draw | discard | chi | pong | open_kong | added_kong | concealed_kong | win | pass
  deriving DecidableEq, Repr

structure Action where
  type : ActionType
  tile : Option Tile
  combo : Option (List Tile)
  playerIdx : Option Nat
  deriving DecidableEq, Repr

/-- `start_hand`: split the (externally shuffled) deck, deal, replace flowers,
enter the play phase with the dealer to act holding a 17th tile. -/
def start_hand (deck : List Tile) : Option Session := do
  let s0 := new_game
  let (wall, back) := build_wall deck
  let (ps1, wall1) ← deal_initial_hands s0.dealerIndex s0.players wall
  let (ps2, back2) ← flower_replacement s0.dealerIndex ps1 back
  some { s0 with
         players := ps2
         wall := wall1
         wallBack := back2
         phase := Phase.play
         currentPlayer := s0.dealerIndex
         subPhase := SubPhase.activeTurn
         justDrew := true }

/-- `list.remove`: drop the first occurrence, `none` models the `ValueError`. -/
def removeFirst {α : Type} [DecidableEq α] : List α → α → Option (List α)
  | [], _ => none
  | x :: xs, t => if x = t then some xs else (removeFirst xs t).map (x :: ·)

/-- `for _ in range(n): hand.remove(t)`. -/
def removeTimes (l : List Tile) (t : Tile) : Nat → Option (List Tile)
  | 0 => some l
  | n + 1 => (removeFirst l t).bind fun l2 => removeTimes l2 t n

/-- `_draw_replacement`: draw from the back wall, falling through to the draw
wall when the back wall is empty; terminal `draw` phase when both are empty;
recurse while the drawn tile is a flower. -/
def draw_replacement (s : Session) (pidx : Nat) : Session :=
  match hb : s.wallBack with
  | [] =>
    match hw : s.wall with
    | [] => { s with phase := Phase.draw }
    | t :: rest =>
      if is_flower_tile t then
        draw_replacement
          { s with
            wall := rest
            players := s.players.set pidx
              { getPlayer s pidx with flowers := (getPlayer s pidx).flowers ++ [t] } } pidx
      else
        { s with
          wall := rest
          players := s.players.set pidx
            { getPlayer s pidx with hand := (getPlayer s pidx).hand ++ [t] }
          justDrew := true
          afterKong := true
          subPhase := SubPhase.activeTurn
          lastAction := some LastAction.replacementDraw }
  | t :: rest =>
    if is_flower_tile t then
      draw_replacement
        { s with
          wallBack := rest
          players := s.players.set pidx
            { getPlayer s pidx with flowers := (getPlayer s pidx).flowers ++ [t] } } pidx
    else
      { s with
        wallBack := rest
        players := s.players.set pidx
          { getPlayer s pidx with hand := (getPlayer s pidx).hand ++ [t] }
        justDrew := true
        afterKong := true
        subPhase := SubPhase.activeTurn
        lastAction := some LastAction.replacementDraw }
termination_by s.wall.length + s.wallBack.length
decreasing_by
  · simp only [hw, hb, List.length_cons, List.length_nil]
    omega
  · simp only [hb, List.length_cons]
    omega

/-- `_do_draw`. -/
def do_draw (s : Session) : Session :=
  match s.wall with
  | [] => { s with phase := Phase.draw }
  | t :: rest =>
    let pidx := s.currentPlayer
    if is_flower_tile t then
      draw_replacement
        { s with
          wall := rest
          players := s.players.set pidx
            { getPlayer s pidx with flowers := (getPlayer s pidx).flowers ++ [t] } } pidx
    else
      { s with
        wall := rest
        players := s.players.set pidx
          { getPlayer s pidx with hand := (getPlayer s pidx).hand ++ [t] }
        justDrew := true
        afterKong := false
        subPhase := SubPhase.activeTurn
        lastAction := some LastAction.draw }

/-- `_do_discard`. -/
def do_discard (s : Session) (a : Action) : Option Session := do
  let t ← a.tile
  let pidx := s.currentPlayer
  let pl := getPlayer s pidx
  let hand2 ← removeFirst pl.hand t
  some { s with
         players := s.players.set pidx
           { pl with hand := hand2, discards := pl.discards ++ [t] }
         discardPool := s.discardPool ++ [t]
         lastDiscard := some t
         lastAction := some LastAction.discard
         pendingDiscard := some t
         pendingDiscarder := some pidx
         justDrew := false
         afterKong := false
         subPhase := SubPhase.claim }

/-- `for t in combo: if t != discard: claimer.hand.remove(t)`. -/
def removeCombo (hand : List Tile) (combo : List Tile) (discard : Tile) :
    Option (List Tile) :=
  combo.foldlM (fun h t => if t = discard then some h else removeFirst h t) hand

/-- `_do_chi`: the next player after the discarder claims the sequence. -/
def do_chi (s : Session) (a : Action) : Option Session := do
  let discard ← a.tile
  let combo ← a.combo
  let discarder ← s.pendingDiscarder
  let claimerIdx := (discarder + 1) % 4
  let claimer := getPlayer s claimerIdx
  let hand2 ← removeCombo claimer.hand combo discard
  let meld : Meld := { type := MeldType.chi, tiles := combo, fromPlayer := some discarder }
  some { s with
         players := s.players.set claimerIdx
           { claimer with hand := hand2, melds := claimer.melds ++ [meld] }
         currentPlayer := claimerIdx
         lastAction := some LastAction.chi
         pendingDiscard := none
         pendingDiscarder := none
         passedPlayers := []
         justDrew := true
         subPhase := SubPhase.activeTurn }

/-- `_find_claimer`: first non-discarder counter-clockwise from the discarder
holding at least `minCount` copies. `none` models the `RuntimeError`. -/
def find_claimer (s : Session) (discard : Tile) (minCount : Nat) : Option Nat := do
  let discarder ← s.pendingDiscarder
  let off ← ([1, 2, 3] : List Nat).find? fun off =>
    decide (minCount ≤ (getPlayer s ((discarder + off) % 4)).hand.count discard)
  some ((discarder + off) % 4)

/-- `_do_pong`: note that the submitted action is ignored entirely; the
claimer is recomputed via `_find_claimer`. -/
def do_pong (s : Session) (_a : Action) : Option Session := do
  let discard ← s.pendingDiscard
  let discarder ← s.pendingDiscarder
  let claimerIdx ← find_claimer s discard 2
  let claimer := getPlayer s claimerIdx
  let hand2 ← removeTimes claimer.hand discard 2
  let meld : Meld := { type := MeldType.pong, tiles := [discard, discard, discard],
                       fromPlayer := some discarder }
  some { s with
         players := s.players.set claimerIdx
           { claimer with hand := hand2, melds := claimer.melds ++ [meld] }
         currentPlayer := claimerIdx
         lastAction := some LastAction.pong
         pendingDiscard := none
         pendingDiscarder := none
         passedPlayers := []
         justDrew := true
         subPhase := SubPhase.activeTurn }

/-- `_do_open_kong`: silently a no-op unless a discard is pending in the claim
sub-phase; otherwise claims the discard as a kong and draws a replacement. -/
def do_open_kong (s : Session) (_a : Action) : Option Session :=
  match s.pendingDiscard, s.pendingDiscarder with
  | some discard, some discarder =>
    if s.subPhase = SubPhase.claim then do
      let claimerIdx ← find_claimer s discard 3
      let claimer := getPlayer s claimerIdx
      let hand2 ← removeTimes claimer.hand discard 3
      let meld : Meld := { type := MeldType.open_kong,
                           tiles := [discard, discard, discard, discard],
                           fromPlayer := some discarder }
      let s2 := { s with
                  players := s.players.set claimerIdx
                    { claimer with hand := hand2, melds := claimer.melds ++ [meld] }
                  currentPlayer := claimerIdx
                  lastAction := some LastAction.openKong
                  pendingDiscard := none
                  pendingDiscarder := none
                  passedPlayers := []
                  justDrew := false
                  subPhase := SubPhase.activeTurn }
      some (draw_replacement s2 claimerIdx)
    else some s
  | _, _ => some s

/-- First pong meld containing the tile, upgraded to an added kong. -/
def upgrade_pong_meld : List Meld → Tile → Option (List Meld)
  | [], _ => none
  | m :: rest, t =>
    if m.type = MeldType.pong ∧ t ∈ m.tiles then
      some ({ m with type := MeldType.added_kong, tiles := m.tiles ++ [t] } :: rest)
    else (upgrade_pong_meld rest t).map (m :: ·)

/-- `_do_added_kong`: upgrade a matching pong (if any), then always draw a
replacement. -/
def do_added_kong (s : Session) (a : Action) : Option Session := do
  let t ← a.tile
  let pidx := s.currentPlayer
  let pl := getPlayer s pidx
  let s2 ←
    match upgrade_pong_meld pl.melds t with
    | some melds2 => do
      let hand2 ← removeFirst pl.hand t
      pure { s with players := s.players.set pidx { pl with hand := hand2, melds := melds2 } }
    | none => pure s
  let s3 := { s2 with
              lastAction := some LastAction.addedKong
              justDrew := false
              subPhase := SubPhase.activeTurn }
  some (draw_replacement s3 pidx)

/-- `_do_concealed_kong`. -/
def do_concealed_kong (s : Session) (a : Action) : Option Session := do
  let t ← a.tile
  let pidx := s.currentPlayer
  let pl := getPlayer s pidx
  let hand2 ← removeTimes pl.hand t 4
  let meld : Meld := { type := MeldType.concealed_kong, tiles := [t, t, t, t],
                       fromPlayer := none }
  let s2 := { s with
              players := s.players.set pidx
                { pl with hand := hand2, melds := pl.melds ++ [meld] }
              lastAction := some LastAction.concealedKong
              justDrew := false
              subPhase := SubPhase.activeTurn }
  some (draw_replacement s2 pidx)

/-- `_do_win`: transition to the win phase (the session does not re-validate). -/
def do_win (s : Session) : Session :=
  { s with phase := Phase.win, lastAction := some LastAction.win }

/-- `_do_pass`. -/
def do_pass (s : Session) (pidx : Nat) : Option Session := do
  let discarder ← s.pendingDiscarder
  let passed2 := if pidx ∈ s.passedPlayers then s.passedPlayers else pidx :: s.passedPlayers
  let nonDiscarders := (List.range 4).filter fun i => decide (i ≠ discarder)
  if nonDiscarders.all fun i => decide (i ∈ passed2) then
    some { s with
           pendingDiscard := none
           pendingDiscarder := none
           passedPlayers := []
           subPhase := SubPhase.activeTurn
           justDrew := false
           currentPlayer := (discarder + 1) % 4
           lastAction := some LastAction.pass }
  else
    some { s with passedPlayers := passed2 }

/-- `GameSession.step`: dispatch on the action type.  Outside the play phase
`step` returns without touching the state.  Note `step` never consults
`get_legal_actions`. -/
def stepE (s : Session) (a : Action) : Option Session :=
  if s.phase ≠ Phase.play then some s
  else
    match a.type with
    | ActionType.draw => some (do_draw s)
    | ActionType.discard => do_discard s a
    | ActionType.chi => do_chi s a
    | ActionType.pong => do_pong s a
    | ActionType.open_kong => do_open_kong s a
    | ActionType.added_kong => do_added_kong s a
    | ActionType.concealed_kong => do_concealed_kong s a
    | ActionType.win => some (do_win s)
    | ActionType.pass =>
      match a.playerIdx with
      | some p => do_pass s p
      | none =>
        match (List.range 4).find? (fun i =>
            decide (some i ≠ s.pendingDiscarder ∧ i ∉ s.passedPlayers)) with
        | some p => do_pass s p
        | none => some s

/-- `_get_claim_actions`. -/
def get_claim_actions (s : Session) (playerIdx : Nat) : List Action :=
  match s.pendingDiscard, s.pendingDiscarder with
  | some discard, some discarder =>
    if playerIdx ∈ s.passedPlayers then []
    else
      let player := getPlayer s playerIdx
      let winActs : List Action :=
        if (is_winning_hand player.hand player.melds player.flowers discard false).isSome
        then [{ type := ActionType.win, tile := some discard, combo := none, playerIdx := none }]
        else []
      let kongActs : List Action :=
        if validate_open_kong player.hand discard
        then [{ type := ActionType.open_kong, tile := some discard, combo := none, playerIdx := none }]
        else []
      let pongActs : List Action :=
        if validate_pong player.hand discard
        then [{ type := ActionType.pong, tile := some discard, combo := none, playerIdx := none }]
        else []
      let chiActs : List Action :=
        if playerIdx = (discarder + 1) % 4 ∧ validate_chi player.hand discard then
          (get_chi_combinations player.hand discard).map fun combo =>
            { type := ActionType.chi, tile := some discard, combo := some combo, playerIdx := none }
        else []
      let acts := winActs ++ kongActs ++ pongActs ++ chiActs ++
        [{ type := ActionType.pass, tile := none, combo := none, playerIdx := some playerIdx }]
      acts.map fun a => { a with playerIdx := some playerIdx }
  | _, _ => []

/-- `get_legal_actions`.  Where the source iterates over `set(player.hand)`
we iterate `player.hand.dedup` (the action *sets* coincide; Python's set
iteration order is unspecified anyway). -/
def get_legal_actions (s : Session) (playerIdx : Nat) : List Action :=
  if s.phase ≠ Phase.play then []
  else if s.subPhase = SubPhase.claim ∧ s.pendingDiscard.isSome then
    if some playerIdx = s.pendingDiscarder then [] else get_claim_actions s playerIdx
  else if playerIdx ≠ s.currentPlayer then []
  else
    let player := getPlayer s playerIdx
    if player.hand.length ≤ 16 ∧ s.justDrew = false then
      [{ type := ActionType.draw, tile := none, combo := none, playerIdx := none }]
    else
      let winActs : List Action :=
        if s.justDrew then
          match player.hand.dedup.find? (fun t =>
              (is_winning_hand (player.hand.erase t) player.melds player.flowers t false).isSome) with
          | some t => [{ type := ActionType.win, tile := some t, combo := none, playerIdx := none }]
          | none => []
        else []
      let ckongActs : List Action :=
        (player.hand.dedup.filter fun t => validate_concealed_kong player.hand t).map fun t =>
          { type := ActionType.concealed_kong, tile := some t, combo := none, playerIdx := none }
      let akongActs : List Action :=
        (player.hand.dedup.filter fun t => validate_added_kong player.melds t).map fun t =>
          { type := ActionType.added_kong, tile := some t, combo := none, playerIdx := none }
      let discActs : List Action :=
        player.hand.dedup.map fun t =>
          { type := ActionType.discard, tile := some t, combo := none, playerIdx := none }
      winActs ++ ckongActs ++ akongActs ++ discActs

/-- The full initial deck (136 suited/honor tiles plus the 8 flowers). -/
def full_deck_144 : List Tile := build_full_deck ++ build_flower_set

/-- Session states reachable from a started hand by legal actions: the deck
is any permutation of the 144-tile deck (the shuffle), and every step is an
action from the current legal-action set of one of the four players. -/
inductive Reachable : Session → Prop where
  | start (deck : List Tile) (s : Session) :
      deck.Perm full_deck_144 → start_hand deck = some s → Reachable s
  | step (s : Session) (p : Nat) (a : Action) (s2 : Session) :
      Reachable s → p < 4 → a ∈ get_legal_actions s p → stepE s a = some s2 →
      Reachable s2

/-! ### ai/shanten.py -/

/-- `_tile_to_idx`: 0-8 = 1m-9m, 9-17 = 1p-9p, 18-26 = 1s-9s, 27-33 = honors.
Flowers (on which the Python raises `KeyError`) map to the out-of-range 34;
all shanten theorems assume flower-free hands, as hands in play are. -/
def tile_to_idx : Tile → Nat
  | Tile.num Suit.m v => v - 1
  | Tile.num Suit.p v => v - 1 + 9
  | Tile.num Suit.s v => v - 1 + 18
  | Tile.E => 27
  | Tile.S => 28
  | Tile.W => 29
  | Tile.N => 30
  | Tile.C => 31
  | Tile.F => 32
  | Tile.B => 33
  | Tile.flower _ => 34

def NUM_TILE_TYPES : Nat := 34

/-- `_hand_to_counts`. -/
def hand_to_counts (hand : List Tile) : List Nat :=
  hand.foldl (fun counts t => counts.set (tile_to_idx t) (counts.getD (tile_to_idx t) 0 + 1))
    (List.replicate NUM_TILE_TYPES 0)

/-- The node score `s = 2·(sets_needed − mentsu) − min(taatsu, sets_needed −
mentsu) − (1 if jantai)`. -/
def sVal (sn : Int) (m t : Nat) (j : Bool) : Int :=
  2 * (sn - m) - min (t : Int) (sn - m) - (if j then 1 else 0)

/-- The `while idx < 34 and counts[idx] == 0: idx += 1` loop. -/
def skipZeros (counts : List Nat) (idx : Nat) : Nat :=
  if idx < NUM_TILE_TYPES then
    if counts.getD idx 0 = 0 then skipZeros counts (idx + 1) else idx
  else idx
termination_by NUM_TILE_TYPES - idx
decreasing_by
  simp only [NUM_TILE_TYPES] at *
  omega

theorem skipZeros_ge (counts : List Nat) (idx : Nat) : idx ≤ skipZeros counts idx := by
  unfold skipZeros
  split
  · split
    · exact le_trans (Nat.le_succ idx) (skipZeros_ge counts (idx + 1))
    · exact le_refl idx
  · exact le_refl idx
termination_by NUM_TILE_TYPES - idx
decreasing_by
  simp only [NUM_TILE_TYPES] at *
  omega

theorem sum_set_of_lt (l : List Nat) (i v : Nat) (h : i < l.length) :
    (l.set i v).sum + l.getD i 0 = l.sum + v := by
  induction l generalizing i with
  | nil => simp at h
  | cons x xs ih =>
    cases i with
    | zero =>
      simp only [List.set, List.sum_cons, List.getD_cons_zero]
      omega
    | succ n =>
      simp only [List.set, List.sum_cons, List.getD_cons_succ]
      have := ih n (by simpa using h)
      omega

theorem getD_pos_lt_length (l : List Nat) (i : Nat) (h : l.getD i 0 ≠ 0) :
    i < l.length := by
  by_contra hc
  rw [List.getD_eq_default] at h
  · exact h rfl
  · omega

theorem sum_set_zero_le (l : List Nat) (i : Nat) : (l.set i 0).sum ≤ l.sum := by
  by_cases h : i < l.length
  · have := sum_set_of_lt l i 0 h
    omega
  · rw [List.set_eq_of_length_le (by omega)]

/-- `counts[i] -= k` on the count array. -/
def decAt (l : List Nat) (i k : Nat) : List Nat := l.set i (l.getD i 0 - k)

theorem length_decAt (l : List Nat) (i k : Nat) : (decAt l i k).length = l.length := by
  simp [decAt]

theorem getD_decAt_ne (l : List Nat) (i j k : Nat) (h : i ≠ j) :
    (decAt l i k).getD j 0 = l.getD j 0 := by
  simp [decAt, List.getD_eq_getElem?_getD, List.getElem?_set_ne h]

theorem getD_decAt_self (l : List Nat) (i k : Nat) (hlt : i < l.length) :
    (decAt l i k).getD i 0 = l.getD i 0 - k := by
  simp [decAt, List.getD_eq_getElem?_getD, List.getElem?_set_self hlt]

theorem sum_decAt (l : List Nat) (i k : Nat) (h1 : 1 ≤ l.getD i 0)
    (hk : k ≤ l.getD i 0) : (decAt l i k).sum + k = l.sum := by
  have hlt : i < l.length := getD_pos_lt_length l i (by omega)
  have h2 := sum_set_of_lt l i (l.getD i 0 - k) hlt
  simp only [decAt]
  omega

/-- `_search`: recursive backtracking over the count array.  The Python
mutates `counts` in place and restores on unwind, and threads the best score
through the mutable cell `best`; here `counts` is passed functionally and the
updated best score is returned. -/
def searchShanten (counts : List Nat) (idx : Nat) (sn : Int) (m t : Nat)
    (j : Bool) (best : Int) : Int :=
  let s := sVal sn m t j
  let best1 := if s < best then s else best
  if best1 ≤ -1 then best1
  else
    let idx1 := skipZeros counts idx
    if h34 : NUM_TILE_TYPES ≤ idx1 then best1
    else
      let remaining := ((counts.drop idx1).sum)
      let maxNewMentsu := remaining / 3
      let maxNewTaatsu := (remaining - maxNewMentsu * 3) / 2
      let theoreticalBest : Int :=
        2 * (sn - m - maxNewMentsu) -
          min ((t : Int) + maxNewTaatsu) (sn - m - maxNewMentsu) - 1
      if best1 ≤ theoreticalBest then best1
      else
        let c := counts.getD idx1 0
        let best2 :=
          if hc3 : 3 ≤ c then
            have hsum : (decAt counts idx1 3).sum + 3 = counts.sum :=
              sum_decAt counts idx1 3 (le_trans (by omega) hc3) hc3
            searchShanten (decAt counts idx1 3) idx1 sn (m + 1) t j best1
          else best1
        let best3 :=
          if hseq : idx1 < 27 ∧ idx1 % 9 ≤ 6 ∧ 1 ≤ c ∧
              1 ≤ counts.getD (idx1 + 1) 0 ∧ 1 ≤ counts.getD (idx1 + 2) 0 then
            have e1 : (decAt counts idx1 1).getD (idx1 + 1) 0 = counts.getD (idx1 + 1) 0 :=
              getD_decAt_ne _ _ _ _ (by omega)
            have e2 : (decAt (decAt counts idx1 1) (idx1 + 1) 1).getD (idx1 + 2) 0
                = counts.getD (idx1 + 2) 0 := by
              rw [getD_decAt_ne _ _ _ _ (by omega), getD_decAt_ne _ _ _ _ (by omega)]
            have hs1 : (decAt counts idx1 1).sum + 1 = counts.sum :=
              sum_decAt counts idx1 1 hseq.2.2.1 hseq.2.2.1
            have hs2 : (decAt (decAt counts idx1 1) (idx1 + 1) 1).sum + 1
                = (decAt counts idx1 1).sum :=
              sum_decAt _ _ 1 (by rw [e1]; exact hseq.2.2.2.1) (by rw [e1]; exact hseq.2.2.2.1)
            have hs3 : (decAt (decAt (decAt counts idx1 1) (idx1 + 1) 1) (idx1 + 2) 1).sum + 1
                = (decAt (decAt counts idx1 1) (idx1 + 1) 1).sum :=
              sum_decAt _ _ 1 (by rw [e2]; exact hseq.2.2.2.2) (by rw [e2]; exact hseq.2.2.2.2)
            searchShanten (decAt (decAt (decAt counts idx1 1) (idx1 + 1) 1) (idx1 + 2) 1)
              idx1 sn (m + 1) t j best2
          else best2
        let best4 :=
          if hp : j = false ∧ 2 ≤ c then
            have hsum : (decAt counts idx1 2).sum + 2 = counts.sum :=
              sum_decAt counts idx1 2 (le_trans (by omega) hp.2) hp.2
            searchShanten (decAt counts idx1 2) idx1 sn m t true best3
          else best3
        let best7 :=
          if ht : (t : Int) < sn - m then
            let best5 :=
              if hp2 : j = true ∧ 2 ≤ c then
                have hsum : (decAt counts idx1 2).sum + 2 = counts.sum :=
                  sum_decAt counts idx1 2 (le_trans (by omega) hp2.2) hp2.2
                searchShanten (decAt counts idx1 2) idx1 sn m (t + 1) j best4
              else best4
            let best6 :=
              if hadj : idx1 < 27 ∧ idx1 % 9 ≤ 7 ∧ 1 ≤ c ∧ 1 ≤ counts.getD (idx1 + 1) 0 then
                have e1 : (decAt counts idx1 1).getD (idx1 + 1) 0 = counts.getD (idx1 + 1) 0 :=
                  getD_decAt_ne _ _ _ _ (by omega)
                have hs1 : (decAt counts idx1 1).sum + 1 = counts.sum :=
                  sum_decAt counts idx1 1 hadj.2.2.1 hadj.2.2.1
                have hs2 : (decAt (decAt counts idx1 1) (idx1 + 1) 1).sum + 1
                    = (decAt counts idx1 1).sum :=
                  sum_decAt _ _ 1 (by rw [e1]; exact hadj.2.2.2) (by rw [e1]; exact hadj.2.2.2)
                searchShanten (decAt (decAt counts idx1 1) (idx1 + 1) 1)
                  idx1 sn m (t + 1) j best5
              else best5
            if hskip1 : idx1 < 27 ∧ idx1 % 9 ≤ 6 ∧ 1 ≤ c ∧ 1 ≤ counts.getD (idx1 + 2) 0 then
              have e1 : (decAt counts idx1 1).getD (idx1 + 2) 0 = counts.getD (idx1 + 2) 0 :=
                getD_decAt_ne _ _ _ _ (by omega)
              have hs1 : (decAt counts idx1 1).sum + 1 = counts.sum :=
                sum_decAt counts idx1 1 hskip1.2.2.1 hskip1.2.2.1
              have hs2 : (decAt (decAt counts idx1 1) (idx1 + 2) 1).sum + 1
                  = (decAt counts idx1 1).sum :=
                sum_decAt _ _ 1 (by rw [e1]; exact hskip1.2.2.2) (by rw [e1]; exact hskip1.2.2.2)
              searchShanten (decAt (decAt counts idx1 1) (idx1 + 2) 1)
                idx1 sn m (t + 1) j best6
            else best6
          else best4
        have hzero : (counts.set idx1 0).sum ≤ counts.sum := sum_set_zero_le counts idx1
        have hlt34 : idx1 < NUM_TILE_TYPES := Nat.lt_of_not_le h34
        have hgeidx : idx ≤ idx1 := skipZeros_ge counts idx
        searchShanten (counts.set idx1 0) (idx1 + 1) sn m t j best7
termination_by 2 * counts.sum + (NUM_TILE_TYPES - idx)
decreasing_by
all_goals have hge := skipZeros_ge counts idx
all_goals try unfold idx1 at *
all_goals simp only [NUM_TILE_TYPES] at *
all_goals omega

/-- `shanten_number`. -/
def shanten_number (hand : List Tile) (melds : List Meld) : Int :=
  let sn : Int := 5 - (melds.length : Int)
  searchShanten (hand_to_counts hand) 0 sn 0 0 false (2 * sn)

/-! ### scorer.py -/

def MAX_TAI : Nat := 81

/-- Yaku names, transliterated from the Chinese strings of the source
(`tianhu` = 天胡, `duiduihu` = 對對胡, `sianke` = 四暗坎, `wuanke` = 五暗坎,
`sananke` = 三暗坎, `menqing` = 門清, `zimo` = 自摸, `zuozhuang` = 作莊,
`lianzhuang` = 連莊, `huagang` = 花槓, `huapai` = 花牌, ...). -/
inductive YakuName where
  | tianhu | dihu | renhu | dasixi | ziyise | peipaiHuahu | tianting
  | bajianGuohai | qiqiangYi | dasanyuan | xiaosixi | qingyise | wuanke
  | sianke | diting | duiduihu | xiaosanyuan | couyise | sananke | buqiu
  | pinghu | quanqiu | huagang | zuozhuang | lianzhuang | menqing | zimo
  | fengpai | fengquan | jianzike | huapai | qianggang | gangshangKaihua
  | haidiLaoyue | hediLaoyu
  deriving DecidableEq, Repr

inductive WinKind where
  | selfDraw | discard
  deriving DecidableEq, Repr

structure ScoringResult where
  yaku : List (YakuName × Nat)
  subtotal : Nat
  total : Nat
  payments : List (Nat × Int)
  deriving DecidableEq, Repr

/-- `_is_triplet`. -/
def is_triplet : List Tile → Bool
  | a :: b :: c :: _ => a = b ∧ b = c
  | _ => false

def suitOf : Tile → Option Suit
  | Tile.num su _ => some su
  | _ => none

/-- `_is_sequence`. -/
def is_sequence (s : List Tile) : Bool :=
  if s.length < 3 then false
  else if ¬ s.all is_number_tile then false
  else if (dedupKeepFirst (s.filterMap suitOf)).length ≠ 1 then false
  else
    match (s.filterMap fun t => match t with
        | Tile.num _ v => some v
        | _ => none).mergeSort (fun a b => decide (a ≤ b)) with
    | v0 :: v1 :: v2 :: _ => v1 = v0 + 1 ∧ v2 = v1 + 1
    | _ => false

/-- The loop body of `_count_concealed_triplets` (with the
`win_tile_used` flag as an explicit argument). -/
def count_concealed_triplets_go (isSelfDraw : Bool) (winTile : Tile) :
    List (List Tile) → Bool → Nat
  | [], _ => 0
  | s :: rest, used =>
    if is_triplet s then
      if ¬ isSelfDraw ∧ ¬ used ∧ s.headD default = winTile then
        count_concealed_triplets_go isSelfDraw winTile rest true
      else 1 + count_concealed_triplets_go isSelfDraw winTile rest used
    else count_concealed_triplets_go isSelfDraw winTile rest used

/-- `_count_concealed_triplets`. -/
def count_concealed_triplets (sets : List (List Tile)) (isSelfDraw : Bool)
    (winTile : Tile) : Nat :=
  count_concealed_triplets_go isSelfDraw winTile sets false

/-- `_count_dragon_triplets` (its kong loop is a no-op in the source). -/
def count_dragon_triplets (allSets : List (List Tile)) (_melds : List Meld) : Nat :=
  (allSets.filter fun s => is_triplet s ∧ is_dragon_tile (s.headD default)).length

/-- `_count_wind_triplets`. -/
def count_wind_triplets (allSets : List (List Tile)) (_melds : List Meld) : Nat :=
  (allSets.filter fun s => is_triplet s ∧ is_wind_tile (s.headD default)).length

/-- `_has_wind_triplet`. -/
def has_wind_triplet (allSets : List (List Tile)) (_melds : List Meld) (wind : Tile) : Bool :=
  allSets.any fun s => is_triplet s ∧ s.headD default = wind

/-- `_has_dragon_triplet`. -/
def has_dragon_triplet (allSets : List (List Tile)) (_melds : List Meld) (dragon : Tile) : Bool :=
  allSets.any fun s => is_triplet s ∧ s.headD default = dragon

/-- `_all_honors`. -/
def all_honors (fullHand : List Tile) (melds : List Meld) : Bool :=
  fullHand.all is_honor_tile ∧ melds.all fun m => m.tiles.all is_honor_tile

/-- `_is_qingyise`. -/
def is_qingyise (fullHand : List Tile) (melds : List Meld) : Bool :=
  let allTiles := fullHand ++ melds.flatMap (·.tiles)
  if ¬ allTiles.all is_number_tile then false
  else (dedupKeepFirst (allTiles.filterMap suitOf)).length = 1

/-- `_is_hunyise`. -/
def is_hunyise (fullHand : List Tile) (melds : List Meld) : Bool :=
  let allTiles := fullHand ++ melds.flatMap (·.tiles)
  if allTiles.all fun t => is_number_tile t || is_honor_tile t then
    (dedupKeepFirst (allTiles.filterMap suitOf)).length = 1 ∧ allTiles.any is_honor_tile
  else false

/-- `_is_duiduihu`. -/
def is_duiduihu (allSets : List (List Tile)) (_melds : List Meld) : Bool :=
  allSets.all is_triplet ∧ allSets.length = 5

/-- `_is_pinghu`. -/
def is_pinghu (allSets : List (List Tile)) (pair : List Tile) (fullHand : List Tile)
    (melds : List Meld) (isSelfDraw : Bool) (isTwoSidedWait : Bool) : Bool :=
  if melds ≠ [] then false
  else if isSelfDraw then false
  else if ¬ isTwoSidedWait then false
  else
    let allTiles := fullHand ++ melds.flatMap (·.tiles)
    if ¬ allTiles.all is_number_tile then false
    else if pair = [] ∨ ¬ is_number_tile (pair.headD default) then false
    else if allSets.length ≠ 5 then false
    else allSets.all is_sequence

/-- `_compute_payments`: self-draw → three payers of `total+L`; discard →
discarder pays `total+L`, the others the 拉莊 surcharge `L`; winner recorded
with the negated sum (the association list keeps the source's dict insertion
order: non-winners ascending, then the winner). -/
def compute_payments (gs : Session) (winnerIdx : Nat) (totalTai : Nat)
    (isSelfDraw : Bool) (discarderIdx : Option Nat) : List (Nat × Int) :=
  let lazhuang : Nat := (getPlayer gs gs.dealerIndex).streak
  let entries := ((List.range 4).filter fun i => decide (i ≠ winnerIdx)).map fun i =>
    if isSelfDraw then (i, ((totalTai + lazhuang : Nat) : Int))
    else if some i = discarderIdx then (i, ((totalTai + lazhuang : Nat) : Int))
    else (i, ((lazhuang : Nat) : Int))
  let totalReceived : Int := (entries.map Prod.snd).sum
  entries ++ [(winnerIdx, -totalReceived)]

/-- Look up a player's entry in the payment association list. -/
def paymentOf (ps : List (Nat × Int)) (i : Nat) : Option Int :=
  (ps.find? fun e => decide (e.1 = i)).map Prod.snd

/-- `score_hand`: all applicable yaku in the source's order, subtotal with
the zero-to-one floor, the `MAX_TAI` cap and the payment breakdown.  The
keyword-only boolean flags are positional here, in the source's order. -/
def score_hand (gs : Session) (winnerIdx : Nat) (winTile : Tile) (winType : WinKind)
    (hand : List Tile) (melds : List Meld) (flowers : List Tile)
    (decomp : Option (List (List Tile) × List Tile)) (discarderIdx : Option Nat)
    (isTwoSidedWait isQiangang isGangshang isHaidi isDiting isTianting
     isTianhu isDihu isRenhu isQiqiangYi isBajianGuohai isPeipaiHuahu : Bool) :
    ScoringResult :=
  let player := getPlayer gs winnerIdx
  let seatWind := WINDS.getD player.seat default
  let roundWind := gs.roundWind
  let isSelfDraw := winType = WinKind.selfDraw
  let openMelds := melds.filter fun m =>
    m.type = MeldType.chi ∨ m.type = MeldType.pong ∨
    m.type = MeldType.open_kong ∨ m.type = MeldType.added_kong
  let isConcealed := openMelds.length = 0
  let fullHand := hand ++ [winTile]
  let (sets, pair) := match decomp with
    | some (s, p) => (s, p)
    | none => (([] : List (List Tile)), ([] : List Tile))
  let allSets := sets ++ melds.map fun m => m.tiles.take 3
  let windTripletCount := count_wind_triplets allSets melds
  let windInPair := pair ≠ [] ∧ pair.length = 2 ∧ is_wind_tile (pair.headD default)
  let dragonTripletCount := count_dragon_triplets allSets melds
  let concealedKongCount := (melds.filter fun m => m.type = MeldType.concealed_kong).length
  let concealedTripletCount :=
    count_concealed_triplets sets isSelfDraw winTile + concealedKongCount
  let y0 : List (YakuName × Nat) := []
  let y1 := if isTianhu then y0 ++ [(YakuName.tianhu, 16)] else y0
  let y2 := if isDihu then y1 ++ [(YakuName.dihu, 16)] else y1
  let y3 := if isRenhu then y2 ++ [(YakuName.renhu, 16)] else y2
  let y4 := if windTripletCount = 4 then y3 ++ [(YakuName.dasixi, 16)] else y3
  let y5 := if decomp.isSome ∧ all_honors fullHand melds then
    y4 ++ [(YakuName.ziyise, 16)] else y4
  let y6 := if isPeipaiHuahu then y5 ++ [(YakuName.peipaiHuahu, 12)] else y5
  let y7 := if isTianting then y6 ++ [(YakuName.tianting, 8)] else y6
  let y8 := if isBajianGuohai then y7 ++ [(YakuName.bajianGuohai, 8)] else y7
  let y9 := if isQiqiangYi then y8 ++ [(YakuName.qiqiangYi, 8)] else y8
  let y10 := if dragonTripletCount = 3 then y9 ++ [(YakuName.dasanyuan, 8)] else y9
  let y11 := if windTripletCount = 3 ∧ windInPair then
    y10 ++ [(YakuName.xiaosixi, 8)] else y10
  let y12 := if decomp.isSome ∧ is_qingyise fullHand melds then
    y11 ++ [(YakuName.qingyise, 8)] else y11
  let y13 := if 5 ≤ concealedTripletCount then y12 ++ [(YakuName.wuanke, 8)] else y12
  let y14 := if concealedTripletCount = 4 ∧ ¬ y13.any (fun e => e.1 = YakuName.wuanke) then
    y13 ++ [(YakuName.sianke, 5)] else y13
  let y15 := if isDiting then y14 ++ [(YakuName.diting, 4)] else y14
  let y16 := if decomp.isSome ∧ is_duiduihu allSets melds then
    y15 ++ [(YakuName.duiduihu, 4)] else y15
  let y17 := if dragonTripletCount = 2 ∧ pair ≠ [] ∧ is_dragon_tile (pair.headD default) then
    y16 ++ [(YakuName.xiaosanyuan, 4)] else y16
  let y18 := if decomp.isSome ∧ is_hunyise fullHand melds ∧
      ¬ y17.any (fun e => e.1 = YakuName.qingyise ∨ e.1 = YakuName.ziyise) then
    y17 ++ [(YakuName.couyise, 4)] else y17
  let y19 := if concealedTripletCount = 3 ∧
      ¬ y18.any (fun e => e.1 = YakuName.sianke ∨ e.1 = YakuName.wuanke) then
    y18 ++ [(YakuName.sananke, 2)] else y18
  let buqiu := isConcealed ∧ isSelfDraw
  let y20 := if buqiu then y19 ++ [(YakuName.buqiu, 2)] else y19
  let y21 := if decomp.isSome ∧
      is_pinghu allSets pair fullHand melds isSelfDraw isTwoSidedWait then
    y20 ++ [(YakuName.pinghu, 2)] else y20
  let y22 := if openMelds.length = 4 ∧ ¬ isSelfDraw then
    y21 ++ [(YakuName.quanqiu, 2)] else y21
  let seasonCount := (flowers.filter (· ∈ SEASON_FLOWERS)).length
  let plantCount := (flowers.filter (· ∈ PLANT_FLOWERS)).length
  let y23 := if seasonCount = 4 then y22 ++ [(YakuName.huagang, 2)] else y22
  let y24 := if plantCount = 4 then y23 ++ [(YakuName.huagang, 2)] else y23
  let y25 := if (getPlayer gs winnerIdx).isDealer then
    y24 ++ [(YakuName.zuozhuang, 1)] else y24
  let dealerStreak := (getPlayer gs gs.dealerIndex).streak
  let y26 := if 0 < dealerStreak then y25 ++ [(YakuName.lianzhuang, dealerStreak)] else y25
  let y27 := if isConcealed ∧ ¬ isSelfDraw ∧ ¬ buqiu then
    y26 ++ [(YakuName.menqing, 1)] else y26
  let y28 := if isSelfDraw ∧ ¬ buqiu then y27 ++ [(YakuName.zimo, 1)] else y27
  let y29 := if has_wind_triplet allSets melds seatWind then
    y28 ++ [(YakuName.fengpai, 1)] else y28
  let y30 := if has_wind_triplet allSets melds roundWind then
    y29 ++ [(YakuName.fengquan, 1)] else y29
  let y31 := y30 ++ (DRAGONS.filter fun d => has_dragon_triplet allSets melds d).map
    fun _ => (YakuName.jianzike, 1)
  let seatFlowers := own_seat_flowers player.seat
  let y32 := y31 ++ (flowers.filter (· ∈ seatFlowers)).map fun _ => (YakuName.huapai, 1)
  let y33 := if isQiangang then y32 ++ [(YakuName.qianggang, 1)] else y32
  let y34 := if isGangshang then y33 ++ [(YakuName.gangshangKaihua, 1)] else y33
  let y35 := if isHaidi then
    (if isSelfDraw then y34 ++ [(YakuName.haidiLaoyue, 1)]
     else y34 ++ [(YakuName.hediLaoyu, 1)])
    else y34
  let subtotal0 : Nat := (y35.map fun e => e.2).sum
  let subtotal := if subtotal0 = 0 then 1 else subtotal0
  let total := min subtotal MAX_TAI
  let payments := compute_payments gs winnerIdx total isSelfDraw discarderIdx
  { yaku := y35, subtotal := subtotal, total := total, payments := payments }

/-! ### Tile accounting and hand-size invariants -/

theorem removeFirst_eq {α : Type} [DecidableEq α] (l : List α) (t : α) :
    removeFirst l t = if t ∈ l then some (l.erase t) else none := by
  induction l with
  | nil => simp [removeFirst]
  | cons x xs ih =>
    by_cases hx : x = t
    · subst hx
      simp [removeFirst, List.erase_cons_head]
    · rw [removeFirst, if_neg hx, ih]
      by_cases hm : t ∈ xs
      · rw [if_pos hm, if_pos (List.mem_cons_of_mem x hm),
          List.erase_cons_tail (by simp [hx])]
        rfl
      · rw [if_neg hm, if_neg (by simp [hm]; exact fun h => absurd h.symm hx)]
        rfl

/-- Tiles in a player's melds. -/
def meldTileCount (p : Player) : Nat := (p.melds.map fun m => m.tiles.length).sum

/-- Tiles a player holds visibly: hand, melds and flowers. -/
def playerZone (p : Player) : Nat := p.hand.length + meldTileCount p + p.flowers.length

/-- Total visible tile count, the quantity of the conservation claim:
hands + meld tiles + flowers + discard pool + draw wall + back wall. -/
def zoneCount (s : Session) : Nat :=
  (s.players.map playerZone).sum + s.discardPool.length + s.wall.length + s.wallBack.length

/-- Melds formed from a claimed discard (everything but concealed kongs). -/
def playerOpenMelds (p : Player) : Nat :=
  (p.melds.filter fun m => decide (m.type ≠ MeldType.concealed_kong)).length

def openMeldCount (s : Session) : Nat := (s.players.map playerOpenMelds).sum

/-- The hand-size form: concealed tiles plus 3 per declared meld. -/
def playerForm (p : Player) : Nat := p.hand.length + 3 * p.melds.length

theorem sum_map_set {α : Type} (f : α → Nat) (l : List α) (i : Nat) (x : α)
    (h : i < l.length) :
    ((l.set i x).map f).sum + f (l.get ⟨i, h⟩) = (l.map f).sum + f x := by
  have h2 : i < (l.map f).length := by simpa using h
  have h3 := sum_set_of_lt (l.map f) i (f x) h2
  rw [← List.map_set] at h3
  have h4 : (l.map f).getD i 0 = f (l.get ⟨i, h⟩) := by
    rw [List.getD_eq_getElem?_getD, List.getElem?_map]
    simp [List.getElem?_eq_getElem h]
  rw [h4] at h3
  exact h3

theorem getPlayer_eq_get (s : Session) (i : Nat) (h : i < s.players.length) :
    getPlayer s i = s.players.get ⟨i, h⟩ := by
  simp [getPlayer, List.getD_eq_getElem?_getD, List.getElem?_eq_getElem h]

/-- The invariant carried through the reachability induction.  It packages
well-formedness (4 players, indices in range), the corrected tile
conservation equation and the corrected hand-size bookkeeping. -/
def Inv (s : Session) : Prop :=
  s.players.length = 4 ∧
  s.currentPlayer < 4 ∧
  (∀ dc, s.pendingDiscarder = some dc → dc < 4) ∧
  zoneCount s = 144 + openMeldCount s ∧
  (s.phase = Phase.play →
    ((s.pendingDiscard = none ∧ s.pendingDiscarder = none ∧
      s.subPhase = SubPhase.activeTurn ∧
      ∀ i, i < 4 →
        playerForm (getPlayer s i) =
          16 + (if i = s.currentPlayer ∧ s.justDrew = true then 1 else 0)) ∨
     (∃ d dc, s.pendingDiscard = some d ∧ s.pendingDiscarder = some dc ∧ dc < 4 ∧
      s.subPhase = SubPhase.claim ∧ s.justDrew = false ∧
      ∀ i, i < 4 → playerForm (getPlayer s i) = 16)))

theorem getD_set_list (l : List Player) (i : Nat) (p' : Player) (hi : i < l.length)
    (j : Nat) :
    (l.set i p').getD j default = if j = i then p' else l.getD j default := by
  by_cases hj : j = i
  · subst hj
    simp [List.getD_eq_getElem?_getD, List.getElem?_set_self hi]
  · simp [List.getD_eq_getElem?_getD,
      List.getElem?_set_ne (fun h => hj h.symm), hj]

theorem sum_map_players_set (f : Player → Nat) (l : List Player) (i : Nat) (p' : Player)
    (h : i < l.length) :
    ((l.set i p').map f).sum + f (l.getD i default) = (l.map f).sum + f p' := by
  have h4 : l.getD i default = l.get ⟨i, h⟩ := by
    simp [List.getD_eq_getElem?_getD, List.getElem?_eq_getElem h]
  rw [h4]
  exact sum_map_set f l i p' h

theorem openMeldCount_eq_of (s s2 : Session) (h4 : s.players.length = 4)
    (h4b : s2.players.length = 4)
    (h : ∀ i, i < 4 → (getPlayer s2 i).melds = (getPlayer s i).melds) :
    openMeldCount s2 = openMeldCount s := by
  unfold openMeldCount
  congr 1
  apply List.ext_get (by simp [h4, h4b])
  intro n h1 h2
  simp only [List.get_eq_getElem, List.getElem_map]
  have hn : n < 4 := by simp [h4b] at h1; omega
  have e1 : s2.players[n] = getPlayer s2 n := by
    simp [getPlayer, List.getD_eq_getElem?_getD, List.getElem?_eq_getElem (by omega : n < s2.players.length)]
  have e2 : s.players[n] = getPlayer s n := by
    simp [getPlayer, List.getD_eq_getElem?_getD, List.getElem?_eq_getElem (by omega : n < s.players.length)]
  rw [e1, e2]
  unfold playerOpenMelds
  rw [h n hn]

theorem draw_replacement_both_empty (s : Session) (pidx : Nat)
    (hb : s.wallBack = []) (hw : s.wall = []) :
    draw_replacement s pidx = { s with phase := Phase.draw } := by
  rw [draw_replacement]
  split
  · split
    · rfl
    · simp_all
  · simp_all

theorem draw_replacement_wall_cons (s : Session) (pidx : Nat) (t : Tile)
    (rest : List Tile) (hb : s.wallBack = []) (hw : s.wall = t :: rest) :
    draw_replacement s pidx =
      if is_flower_tile t then
        draw_replacement
          { s with
            wall := rest
            players := s.players.set pidx
              { getPlayer s pidx with flowers := (getPlayer s pidx).flowers ++ [t] } } pidx
      else
        { s with
          wall := rest
          players := s.players.set pidx
            { getPlayer s pidx with hand := (getPlayer s pidx).hand ++ [t] }
          justDrew := true
          afterKong := true
          subPhase := SubPhase.activeTurn
          lastAction := some LastAction.replacementDraw } := by
  rw [draw_replacement]
  split
  · split
    · simp_all
    · rename_i heqb heqw
      rw [hw] at heqw
      cases heqw
      rfl
  · simp_all

theorem draw_replacement_back_cons (s : Session) (pidx : Nat) (t : Tile)
    (rest : List Tile) (hb : s.wallBack = t :: rest) :
    draw_replacement s pidx =
      if is_flower_tile t then
        draw_replacement
          { s with
            wallBack := rest
            players := s.players.set pidx
              { getPlayer s pidx with flowers := (getPlayer s pidx).flowers ++ [t] } } pidx
      else
        { s with
          wallBack := rest
          players := s.players.set pidx
            { getPlayer s pidx with hand := (getPlayer s pidx).hand ++ [t] }
          justDrew := true
          afterKong := true
          subPhase := SubPhase.activeTurn
          lastAction := some LastAction.replacementDraw } := by
  rw [draw_replacement]
  split
  · simp_all
  · rename_i heqb
    rw [hb] at heqb
    cases heqb
    rfl

/-- Structure of `_draw_replacement`: it conserves the visible tile count,
never touches melds or other players' hands, and either ends the hand
(`draw` phase, both walls empty) or hands the player exactly one tile and
marks them as having just drawn. -/
theorem zone_flower_bump (s : Session) (pidx : Nat) (t : Tile)
    (hp : pidx < s.players.length) :
    (List.map playerZone (s.players.set pidx
      { getPlayer s pidx with flowers := (getPlayer s pidx).flowers ++ [t] })).sum
    = (List.map playerZone s.players).sum + 1 := by
  have hs := sum_map_players_set playerZone s.players pidx
    { getPlayer s pidx with flowers := (getPlayer s pidx).flowers ++ [t] } hp
  have hzp : playerZone { getPlayer s pidx with
      flowers := (getPlayer s pidx).flowers ++ [t] } = playerZone (getPlayer s pidx) + 1 := by
    simp [playerZone, meldTileCount]
    omega
  simp only [getPlayer] at hs hzp ⊢
  omega

theorem zone_hand_bump (s : Session) (pidx : Nat) (t : Tile)
    (hp : pidx < s.players.length) :
    (List.map playerZone (s.players.set pidx
      { getPlayer s pidx with hand := (getPlayer s pidx).hand ++ [t] })).sum
    = (List.map playerZone s.players).sum + 1 := by
  have hs := sum_map_players_set playerZone s.players pidx
    { getPlayer s pidx with hand := (getPlayer s pidx).hand ++ [t] } hp
  have hzp : playerZone { getPlayer s pidx with
      hand := (getPlayer s pidx).hand ++ [t] } = playerZone (getPlayer s pidx) + 1 := by
    simp [playerZone, meldTileCount]
    omega
  simp only [getPlayer] at hs hzp ⊢
  omega

theorem draw_replacement_spec (s : Session) (pidx : Nat) :
    s.players.length = 4 → pidx < 4 →
    zoneCount (draw_replacement s pidx) = zoneCount s ∧
    (draw_replacement s pidx).players.length = 4 ∧
    (∀ i, i < 4 → (getPlayer (draw_replacement s pidx) i).melds = (getPlayer s i).melds) ∧
    (∀ i, i < 4 → i ≠ pidx →
      (getPlayer (draw_replacement s pidx) i).hand = (getPlayer s i).hand) ∧
    (draw_replacement s pidx).currentPlayer = s.currentPlayer ∧
    (draw_replacement s pidx).pendingDiscard = s.pendingDiscard ∧
    (draw_replacement s pidx).pendingDiscarder = s.pendingDiscarder ∧
    ((draw_replacement s pidx).phase = Phase.draw ∧
       (getPlayer (draw_replacement s pidx) pidx).hand = (getPlayer s pidx).hand ∨
     (draw_replacement s pidx).phase = s.phase ∧
       (draw_replacement s pidx).justDrew = true ∧
       (draw_replacement s pidx).subPhase = SubPhase.activeTurn ∧
       (getPlayer (draw_replacement s pidx) pidx).hand.length
         = (getPlayer s pidx).hand.length + 1) := by
  induction s, pidx using draw_replacement.induct with
  | case1 s pidx hb hw =>
    intro h4 hp
    rw [draw_replacement_both_empty s pidx hb hw]
    exact ⟨by simp [zoneCount], by simp [h4], fun i _ => by simp [getPlayer],
      fun i _ _ => by simp [getPlayer], by simp, by simp, by simp,
      Or.inl ⟨by simp, by simp [getPlayer]⟩⟩
  | case2 s pidx hb t tail hw hfl ih =>
    intro h4 hp
    rw [draw_replacement_wall_cons s pidx t tail hb hw, if_pos hfl]
    set s2 : Session := { s with
      wall := tail
      players := s.players.set pidx
        { getPlayer s pidx with flowers := (getPlayer s pidx).flowers ++ [t] } } with hs2
    have h4b : s2.players.length = 4 := by simp [hs2, h4]
    have hgp : ∀ j, getPlayer s2 j =
        if j = pidx then { getPlayer s pidx with
          flowers := (getPlayer s pidx).flowers ++ [t] } else getPlayer s j := by
      intro j
      simp only [hs2, getPlayer]
      exact getD_set_list s.players pidx _ (by omega) j
    have hz : zoneCount s2 = zoneCount s := by
      simp only [zoneCount, hs2, hw]
      rw [zone_flower_bump s pidx t (by omega)]
      simp only [List.length_cons]
      omega
    obtain ⟨z1, z2, z3, z4, z5, z6, z7, z8⟩ := ih h4b (by omega)
    refine ⟨by rw [z1, hz], z2, ?_, ?_, by simpa using z5, by simpa using z6,
      by simpa using z7, ?_⟩
    · intro i hi
      rw [z3 i hi, hgp i]
      by_cases hip : i = pidx <;> simp [hip]
    · intro i hi hne
      rw [z4 i hi hne, hgp i]
      simp [hne]
    · rcases z8 with ⟨zp, zh⟩ | ⟨zp, zj, zs, zh⟩
      · exact Or.inl ⟨zp, by rw [zh, hgp pidx]; simp⟩
      · exact Or.inr ⟨by simpa using zp, zj, zs, by rw [zh, hgp pidx]; simp⟩
  | case3 s pidx hb t tail hw hfl =>
    intro h4 hp
    rw [draw_replacement_wall_cons s pidx t tail hb hw, if_neg (by simp [hfl])]
    have hgp : ∀ j, (s.players.set pidx
        { getPlayer s pidx with hand := (getPlayer s pidx).hand ++ [t] }).getD j default =
        if j = pidx then { getPlayer s pidx with
          hand := (getPlayer s pidx).hand ++ [t] } else getPlayer s j :=
      fun j => getD_set_list s.players pidx _ (by omega) j
    simp only [getPlayer] at hgp
    refine ⟨?_, by simp [h4], ?_, ?_, by simp, by simp, by simp,
      Or.inr ⟨by simp, by simp, by simp, ?_⟩⟩
    · simp only [zoneCount]
      rw [zone_hand_bump s pidx t (by omega), hw]
      simp only [List.length_cons]
      omega
    · intro i hi
      simp only [getPlayer]
      rw [hgp i]
      by_cases hip : i = pidx <;> simp [hip, getPlayer]
    · intro i hi hne
      simp only [getPlayer]
      rw [hgp i]
      simp [hne, getPlayer]
    · simp only [getPlayer]
      rw [hgp pidx]
      simp
  | case4 s pidx t tail hb hfl ih =>
    intro h4 hp
    rw [draw_replacement_back_cons s pidx t tail hb, if_pos hfl]
    set s2 : Session := { s with
      wallBack := tail
      players := s.players.set pidx
        { getPlayer s pidx with flowers := (getPlayer s pidx).flowers ++ [t] } } with hs2
    have h4b : s2.players.length = 4 := by simp [hs2, h4]
    have hgp : ∀ j, getPlayer s2 j =
        if j = pidx then { getPlayer s pidx with
          flowers := (getPlayer s pidx).flowers ++ [t] } else getPlayer s j := by
      intro j
      simp only [hs2, getPlayer]
      exact getD_set_list s.players pidx _ (by omega) j
    have hz : zoneCount s2 = zoneCount s := by
      simp only [zoneCount, hs2, hb]
      rw [zone_flower_bump s pidx t (by omega)]
      simp only [List.length_cons]
      omega
    obtain ⟨z1, z2, z3, z4, z5, z6, z7, z8⟩ := ih h4b (by omega)
    refine ⟨by rw [z1, hz], z2, ?_, ?_, by simpa using z5, by simpa using z6,
      by simpa using z7, ?_⟩
    · intro i hi
      rw [z3 i hi, hgp i]
      by_cases hip : i = pidx <;> simp [hip]
    · intro i hi hne
      rw [z4 i hi hne, hgp i]
      simp [hne]
    · rcases z8 with ⟨zp, zh⟩ | ⟨zp, zj, zs, zh⟩
      · exact Or.inl ⟨zp, by rw [zh, hgp pidx]; simp⟩
      · exact Or.inr ⟨by simpa using zp, zj, zs, by rw [zh, hgp pidx]; simp⟩
  | case5 s pidx t tail hb hfl =>
    intro h4 hp
    rw [draw_replacement_back_cons s pidx t tail hb, if_neg (by simp [hfl])]
    have hgp : ∀ j, (s.players.set pidx
        { getPlayer s pidx with hand := (getPlayer s pidx).hand ++ [t] }).getD j default =
        if j = pidx then { getPlayer s pidx with
          hand := (getPlayer s pidx).hand ++ [t] } else getPlayer s j :=
      fun j => getD_set_list s.players pidx _ (by omega) j
    simp only [getPlayer] at hgp
    refine ⟨?_, by simp [h4], ?_, ?_, by simp, by simp, by simp,
      Or.inr ⟨by simp, by simp, by simp, ?_⟩⟩
    · simp only [zoneCount]
      rw [zone_hand_bump s pidx t (by omega), hb]
      simp only [List.length_cons]
      omega
    · intro i hi
      simp only [getPlayer]
      rw [hgp i]
      by_cases hip : i = pidx <;> simp [hip, getPlayer]
    · intro i hi hne
      simp only [getPlayer]
      rw [hgp i]
      simp [hne, getPlayer]
    · simp only [getPlayer]
      rw [hgp pidx]
      simp

/-- Structure of the claim-window legal-action list. -/
theorem get_claim_actions_spec (s : Session) (p : Nat) (a : Action)
    (h : a ∈ get_claim_actions s p) :
    ∃ d dc, s.pendingDiscard = some d ∧ s.pendingDiscarder = some dc ∧
      p ∉ s.passedPlayers ∧ a.playerIdx = some p ∧
      ((a.type = ActionType.win ∧ a.tile = some d) ∨
       (a.type = ActionType.open_kong ∧ a.tile = some d ∧
         validate_open_kong (getPlayer s p).hand d = true) ∨
       (a.type = ActionType.pong ∧ a.tile = some d ∧
         validate_pong (getPlayer s p).hand d = true) ∨
       (a.type = ActionType.chi ∧ a.tile = some d ∧ p = (dc + 1) % 4 ∧
         ∃ combo, a.combo = some combo ∧
           combo ∈ get_chi_combinations (getPlayer s p).hand d) ∨
       a.type = ActionType.pass) := by
  unfold get_claim_actions at h
  rcases hpd : s.pendingDiscard with _ | d <;> rw [hpd] at h
  · simp at h
  rcases hpdc : s.pendingDiscarder with _ | dc <;> rw [hpdc] at h
  · simp at h
  simp only [] at h
  by_cases hpass : p ∈ s.passedPlayers
  · rw [if_pos hpass] at h
    simp at h
  rw [if_neg hpass] at h
  refine ⟨d, dc, rfl, rfl, hpass, ?_⟩
  simp only [List.mem_map, List.mem_append] at h
  obtain ⟨a0, ha0, rfl⟩ := h
  refine ⟨rfl, ?_⟩
  rcases ha0 with ((((hw | hk) | hpg) | hc) | hp)
  · left
    split at hw
    · simp at hw
      subst hw
      exact ⟨rfl, rfl⟩
    · simp at hw
  · right; left
    split at hk <;> rename_i hcond
    · simp at hk
      subst hk
      exact ⟨rfl, rfl, hcond⟩
    · simp at hk
  · right; right; left
    split at hpg <;> rename_i hcond
    · simp at hpg
      subst hpg
      exact ⟨rfl, rfl, hcond⟩
    · simp at hpg
  · right; right; right; left
    split at hc <;> rename_i hcond
    · simp only [List.mem_map] at hc
      obtain ⟨combo, hcombo, rfl⟩ := hc
      exact ⟨rfl, rfl, hcond.1, combo, rfl, hcombo⟩
    · simp at hc
  · right; right; right; right
    simp at hp
    subst hp
    rfl

/-- Structure of the active-turn legal-action list. -/
theorem get_legal_actions_active_spec (s : Session) (p : Nat) (a : Action)
    (h : a ∈ get_legal_actions s p)
    (hnc : ¬(s.subPhase = SubPhase.claim ∧ s.pendingDiscard.isSome)) :
    s.phase = Phase.play ∧ p = s.currentPlayer ∧
    (((getPlayer s p).hand.length ≤ 16 ∧ s.justDrew = false ∧
       a = { type := ActionType.draw, tile := none, combo := none, playerIdx := none }) ∨
     (¬((getPlayer s p).hand.length ≤ 16 ∧ s.justDrew = false) ∧
      ((a.type = ActionType.win ∧ s.justDrew = true) ∨
       (a.type = ActionType.concealed_kong ∧ ∃ t, a.tile = some t ∧
         validate_concealed_kong (getPlayer s p).hand t = true) ∨
       (a.type = ActionType.added_kong ∧ ∃ t, a.tile = some t ∧
         t ∈ (getPlayer s p).hand ∧ validate_added_kong (getPlayer s p).melds t = true) ∨
       (a.type = ActionType.discard ∧ ∃ t, a.tile = some t ∧
         t ∈ (getPlayer s p).hand)))) := by
  unfold get_legal_actions at h
  by_cases hph : s.phase ≠ Phase.play
  · rw [if_pos hph] at h
    simp at h
  rw [if_neg hph] at h
  push_neg at hph
  rw [if_neg (by
    intro hcl
    exact hnc ⟨hcl.1, hcl.2⟩)] at h
  by_cases hcur : p ≠ s.currentPlayer
  · rw [if_pos hcur] at h
    simp at h
  rw [if_neg hcur] at h
  push_neg at hcur
  refine ⟨hph, hcur, ?_⟩
  by_cases hdr : (getPlayer s p).hand.length ≤ 16 ∧ s.justDrew = false
  · rw [if_pos hdr] at h
    simp at h
    exact Or.inl ⟨hdr.1, hdr.2, h⟩
  rw [if_neg hdr] at h
  refine Or.inr ⟨hdr, ?_⟩
  simp only [List.mem_append] at h
  rcases h with ((hw | hk) | hak) | hd
  · left
    by_cases hj : s.justDrew = true
    · rw [if_pos hj] at hw
      constructor
      · split at hw
        · simp at hw
          subst hw
          rfl
        · simp at hw
      · exact hj
    · rw [if_neg hj] at hw
      simp at hw
  · right; left
    simp only [List.mem_map, List.mem_filter] at hk
    obtain ⟨t, ⟨_, hv⟩, rfl⟩ := hk
    exact ⟨rfl, t, rfl, hv⟩
  · right; right; left
    simp only [List.mem_map, List.mem_filter] at hak
    obtain ⟨t, ⟨hmem, hv⟩, rfl⟩ := hak
    exact ⟨rfl, t, rfl, List.mem_dedup.mp hmem, hv⟩
  · right; right; right
    simp only [List.mem_map] at hd
    obtain ⟨t, hmem, rfl⟩ := hd
    exact ⟨rfl, t, rfl, List.mem_dedup.mp hmem⟩

/-- Any legal action is issued in the play phase. -/
theorem get_legal_actions_play (s : Session) (p : Nat) (a : Action)
    (h : a ∈ get_legal_actions s p) : s.phase = Phase.play := by
  unfold get_legal_actions at h
  by_cases hph : s.phase ≠ Phase.play
  · rw [if_pos hph] at h
    simp at h
  · push_neg at hph
    exact hph

/-- A legal action in the claim window is not issued by the discarder. -/
theorem get_legal_actions_claim_case (s : Session) (p : Nat) (a : Action)
    (h : a ∈ get_legal_actions s p)
    (hc : s.subPhase = SubPhase.claim ∧ s.pendingDiscard.isSome) :
    some p ≠ s.pendingDiscarder ∧ a ∈ get_claim_actions s p := by
  have hph := get_legal_actions_play s p a h
  unfold get_legal_actions at h
  rw [if_neg (not_not_intro hph)] at h
  rw [if_pos hc] at h
  by_cases hdisc : some p = s.pendingDiscarder
  · rw [if_pos hdisc] at h
    simp at h
  · rw [if_neg hdisc] at h
    exact ⟨hdisc, h⟩

theorem removeFirst_some_length {α : Type} [DecidableEq α] (l l2 : List α) (t : α)
    (h : removeFirst l t = some l2) : l2.length + 1 = l.length := by
  rw [removeFirst_eq] at h
  by_cases hm : t ∈ l
  · rw [if_pos hm] at h
    cases h
    rw [List.length_erase_of_mem hm]
    have : 0 < l.length := List.length_pos.mpr (List.ne_nil_of_mem hm)
    omega
  · rw [if_neg hm] at h
    cases h

theorem removeTimes_length (l l2 : List Tile) (t : Tile) (n : Nat)
    (h : removeTimes l t n = some l2) : l2.length + n = l.length := by
  induction n generalizing l with
  | zero =>
    injection h with h
    subst h
    rfl
  | succ k ih =>
    rw [show removeTimes l t (k + 1) = (removeFirst l t).bind fun l2 => removeTimes l2 t k from rfl] at h
    rcases hr : removeFirst l t with _ | l1 <;> rw [hr] at h
    · simp at h
    · simp only [Option.some_bind] at h
      have h1 := removeFirst_some_length l l1 t hr
      have h2 := ih l1 h
      omega

theorem removeCombo_length (hand h2 : List Tile) (combo : List Tile) (d : Tile)
    (h : removeCombo hand combo d = some h2) :
    h2.length + (combo.filter fun t => decide (t ≠ d)).length = hand.length := by
  induction combo generalizing hand with
  | nil =>
    simp [removeCombo] at h
    subst h
    simp
  | cons c cs ih =>
    simp only [removeCombo, List.foldlM_cons] at h
    by_cases hc : c = d
    · rw [if_pos hc] at h
      have := ih hand h
      simp only [List.filter_cons]
      rw [if_neg (by simp [hc])]
      exact this
    · rw [if_neg hc] at h
      rcases hr : removeFirst hand c with _ | h1 <;> rw [hr] at h
      · exact Option.noConfusion h
      · have h1l := removeFirst_some_length hand h1 c hr
        have h2l := ih h1 h
        simp only [List.filter_cons]
        rw [if_pos (by simp [hc])]
        simp only [List.length_cons]
        omega

theorem foldl_dedup_mem {α : Type} [DecidableEq α] (l : List α) :
    ∀ (acc : List α) (x : α),
      x ∈ l.foldl (fun acc x => if x ∈ acc then acc else acc ++ [x]) acc →
      x ∈ acc ∨ x ∈ l := by
  induction l with
  | nil =>
    intro acc x h1
    exact Or.inl h1
  | cons y ys ih =>
    intro acc x h1
    simp only [List.foldl_cons] at h1
    rcases ih (if y ∈ acc then acc else acc ++ [y]) x h1 with h2 | h2
    · by_cases hy : y ∈ acc
      · rw [if_pos hy] at h2
        exact Or.inl h2
      · rw [if_neg hy] at h2
        simp at h2
        rcases h2 with h2 | h2
        · exact Or.inl h2
        · exact Or.inr (by simp [h2])
    · exact Or.inr (List.mem_cons_of_mem y h2)

theorem mem_dedupKeepFirst {α : Type} [DecidableEq α] (l : List α) (x : α)
    (h : x ∈ dedupKeepFirst l) : x ∈ l := by
  unfold dedupKeepFirst at h
  rcases foldl_dedup_mem l [] x h with h1 | h1
  · simp at h1
  · exact h1

/-- A chi combination removes exactly two tiles from the hand (the discard
occurs exactly once in the sequence). -/
theorem chi_combo_filter_length (hand : List Tile) (d : Tile) (combo : List Tile)
    (h : combo ∈ get_chi_combinations hand d) :
    (combo.filter fun t => decide (t ≠ d)).length = 2 := by
  obtain ⟨su, v⟩ | _ | _ | _ | _ | _ | _ | _ | i := d
  · have h2 := mem_dedupKeepFirst _ _ h
    simp only [List.mem_filterMap, List.mem_range] at h2
    obtain ⟨off, hoff, hcombo⟩ := h2
    by_cases hguard : v ≤ off ∨ 9 < v - off + 2
    · rw [if_pos hguard] at hcombo
      cases hcombo
    rw [if_neg hguard] at hcombo
    push_neg at hguard
    obtain ⟨hvo, _⟩ := hguard
    split at hcombo
    · simp only [Option.some_inj] at hcombo
      subst hcombo
      interval_cases off
      · simp only [Nat.sub_zero, List.map_cons, List.map_nil]
        have n1 : v + 1 ≠ v := by omega
        have n2 : v + 2 ≠ v := by omega
        simp [List.filter_cons, Tile.num.injEq, n1, n2]
      · have e1 : v - 1 + 1 = v := by omega
        have e2 : v - 1 + 2 = v + 1 := by omega
        simp only [e1, e2, List.map_cons, List.map_nil]
        have n1 : v - 1 ≠ v := by omega
        have n2 : v + 1 ≠ v := by omega
        simp [List.filter_cons, Tile.num.injEq, n1, n2]
      · have e1 : v - 2 + 1 = v - 1 := by omega
        have e2 : v - 2 + 2 = v := by omega
        simp only [e1, e2, List.map_cons, List.map_nil]
        have n1 : v - 2 ≠ v := by omega
        have n2 : v - 1 ≠ v := by omega
        simp [List.filter_cons, Tile.num.injEq, n1, n2]
    · cases hcombo
  all_goals simp [get_chi_combinations] at h

theorem upgrade_pong_meld_spec (melds melds2 : List Meld) (t : Tile)
    (h : upgrade_pong_meld melds t = some melds2) :
    melds2.length = melds.length ∧
    (melds2.map fun m => m.tiles.length).sum = (melds.map fun m => m.tiles.length).sum + 1 ∧
    (melds2.filter fun m => decide (m.type ≠ MeldType.concealed_kong)).length
      = (melds.filter fun m => decide (m.type ≠ MeldType.concealed_kong)).length := by
  induction melds generalizing melds2 with
  | nil => exact Option.noConfusion h
  | cons m rest ih =>
    unfold upgrade_pong_meld at h
    by_cases hc : m.type = MeldType.pong ∧ t ∈ m.tiles
    · rw [if_pos hc] at h
      simp only [Option.some_inj] at h
      subst h
      refine ⟨by simp, by simp; omega, ?_⟩
      simp only [List.filter_cons]
      rw [if_pos (by simp), if_pos (by simp [hc.1])]
      simp
    · rw [if_neg hc] at h
      rcases hr : upgrade_pong_meld rest t with _ | r2 <;> rw [hr] at h
      · exact Option.noConfusion h
      · injection h with h
        subst h
        obtain ⟨i1, i2, i3⟩ := ih r2 hr
        refine ⟨by simp [i1], by simp; omega, ?_⟩
        by_cases hm : (decide (m.type ≠ MeldType.concealed_kong)) = true
        · rw [List.filter_cons, List.filter_cons, if_pos hm, if_pos hm]
          simp only [List.length_cons]
          omega
        · rw [List.filter_cons, List.filter_cons, if_neg hm, if_neg hm]
          exact i3

/-! ### Invariant: the start-of-hand base case -/

theorem length_filter_partition {α : Type} (p : α → Bool) (l : List α) :
    (l.filter p).length + (l.filter fun a => !p a).length = l.length := by
  induction l with
  | nil => rfl
  | cons x xs ih =>
    by_cases hx : p x = true <;> simp [List.filter_cons, hx] <;> omega

/-- `_replace_flowers_for_player` keeps the hand size and moves tiles only
between the back wall and the flower row. -/
theorem replace_flowers_spec (back hand flowers : List Tile) :
    ∀ b2 h2 f2 : List Tile,
    replace_flowers_for_player back hand flowers = some (b2, h2, f2) →
    h2.length = hand.length ∧
    b2.length + f2.length = back.length + flowers.length := by
  induction back, hand, flowers using replace_flowers_for_player.induct with
  | case1 back hand flowers hfl =>
    intro b2 h2 f2 h
    rw [replace_flowers_for_player, dif_pos hfl] at h
    injection h with h
    cases h
    exact ⟨rfl, rfl⟩
  | case2 back hand flowers hfl hlen =>
    intro b2 h2 f2 h
    rw [replace_flowers_for_player, dif_neg hfl, dif_pos hlen] at h
    exact Option.noConfusion h
  | case3 back hand flowers hfl hlen ih =>
    intro b2 h2 f2 h
    rw [replace_flowers_for_player, dif_neg hfl, dif_neg hlen] at h
    obtain ⟨e1, e2⟩ := ih b2 h2 f2 h
    have hpart := length_filter_partition is_flower_tile hand
    have hkpos : 0 < (hand.filter is_flower_tile).length :=
      List.length_pos.mpr hfl
    constructor
    · rw [e1]
      simp only [List.length_append, List.length_take]
      omega
    · simp only [List.length_drop, List.length_append, List.length_reverse] at e2
      omega

theorem deal_round_spec (ps : List Player) (w : List Tile) (pIdx : Nat)
    (res : List Player × List Tile) (hp : pIdx < ps.length)
    (h : deal_round (ps, w) pIdx = some res) :
    res.1.length = ps.length ∧ res.2.length + 4 = w.length ∧
    (∀ j, j < ps.length →
      (res.1.getD j default).hand.length
        = (ps.getD j default).hand.length + (if j = pIdx then 4 else 0) ∧
      (res.1.getD j default).melds = (ps.getD j default).melds ∧
      (res.1.getD j default).flowers = (ps.getD j default).flowers) := by
  by_cases hw : w.length < 4
  · simp [deal_round, draw_tiles, hw] at h
  · simp only [deal_round, draw_tiles, if_neg hw, Option.some_bind] at h
    injection h with h
    subst h
    have htk : (w.take 4).length = 4 := by
      rw [List.length_take]
      omega
    refine ⟨by simp, by simp; omega, ?_⟩
    intro j hj
    rw [getD_set_list ps pIdx _ hp j]
    by_cases hjp : j = pIdx
    · subst hjp
      refine ⟨?_, by simp, by simp⟩
      simp [htk]
    · simp [hjp]

theorem deal_fold_spec (rounds : List Nat) :
    ∀ (ps : List Player) (w : List Tile) (res : List Player × List Tile),
    (∀ r ∈ rounds, r < ps.length) →
    rounds.foldlM deal_round (ps, w) = some res →
    res.1.length = ps.length ∧
    res.2.length + 4 * rounds.length = w.length ∧
    (∀ j, j < ps.length →
      (res.1.getD j default).hand.length
        = (ps.getD j default).hand.length + 4 * rounds.count j ∧
      (res.1.getD j default).melds = (ps.getD j default).melds ∧
      (res.1.getD j default).flowers = (ps.getD j default).flowers) := by
  induction rounds with
  | nil =>
    intro ps w res _ h
    simp only [List.foldlM_nil] at h
    injection h with h
    subst h
    exact ⟨rfl, by simp, fun j _ => ⟨by simp, rfl, rfl⟩⟩
  | cons r rs ih =>
    intro ps w res hmem h
    rw [List.foldlM_cons] at h
    rcases hr : deal_round (ps, w) r with _ | st1 <;> rw [hr] at h
    · exact Option.noConfusion h
    obtain ⟨ps1, w1⟩ := st1
    replace h : rs.foldlM deal_round (ps1, w1) = some res := h
    obtain ⟨d1, d2, d3⟩ :=
      deal_round_spec ps w r (ps1, w1) (hmem r (by simp)) hr
    replace d1 : ps1.length = ps.length := d1
    replace d2 : w1.length + 4 = w.length := d2
    replace d3 : ∀ j, j < ps.length →
        (ps1.getD j default).hand.length
          = (ps.getD j default).hand.length + (if j = r then 4 else 0) ∧
        (ps1.getD j default).melds = (ps.getD j default).melds ∧
        (ps1.getD j default).flowers = (ps.getD j default).flowers := d3
    obtain ⟨f1, f2, f3⟩ := ih ps1 w1 res
      (fun x hx => by rw [d1]; exact hmem x (List.mem_cons_of_mem r hx)) h
    refine ⟨by rw [f1, d1], by simp only [List.length_cons]; omega, ?_⟩
    intro j hj
    have hj1 : j < ps1.length := by omega
    obtain ⟨g1, g2, g3⟩ := f3 j hj1
    obtain ⟨e1, e2, e3⟩ := d3 j hj
    refine ⟨?_, by rw [g2, e2], by rw [g3, e3]⟩
    rw [g1, e1, List.count_cons]
    by_cases hjr : j = r <;> simp [hjr] <;> omega

theorem flower_round_spec (ps : List Player) (back : List Tile) (pIdx : Nat)
    (res : List Player × List Tile) (hp : pIdx < ps.length)
    (h : flower_round (ps, back) pIdx = some res) :
    res.1.length = ps.length ∧
    (res.1.map fun p => p.flowers.length).sum + res.2.length
      = (ps.map fun p => p.flowers.length).sum + back.length ∧
    (∀ j, j < ps.length →
      (res.1.getD j default).hand.length = (ps.getD j default).hand.length ∧
      (res.1.getD j default).melds = (ps.getD j default).melds) := by
  rcases hr : replace_flowers_for_player back (ps.getD pIdx default).hand
      (ps.getD pIdx default).flowers with _ | ⟨b2, h2, f2⟩ <;>
    simp only [flower_round, hr, Option.some_bind] at h
  · exact Option.noConfusion h
  injection h with h
  have hps : res.1 = ps.set pIdx
      { ps.getD pIdx default with hand := h2, flowers := f2 } := by
    have h2 := congrArg Prod.fst h
    exact h2.symm
  have hb : res.2 = b2 := by
    have h3 := congrArg Prod.snd h
    exact h3.symm
  obtain ⟨r1, r2⟩ := replace_flowers_spec back (ps.getD pIdx default).hand
    (ps.getD pIdx default).flowers b2 h2 f2 hr
  refine ⟨by rw [hps]; simp, ?_, ?_⟩
  · have hs := sum_map_players_set (fun p => p.flowers.length) ps pIdx
      { ps.getD pIdx default with hand := h2, flowers := f2 } hp
    rw [hps, hb]
    simp only at hs
    simp only []
    omega
  · intro j hj
    rw [hps, getD_set_list ps pIdx _ hp j]
    by_cases hjp : j = pIdx
    · subst hjp
      simp [r1]
    · simp [hjp]

theorem flower_fold_spec (order : List Nat) :
    ∀ (ps : List Player) (back : List Tile) (res : List Player × List Tile),
    (∀ r ∈ order, r < ps.length) →
    order.foldlM flower_round (ps, back) = some res →
    res.1.length = ps.length ∧
    (res.1.map fun p => p.flowers.length).sum + res.2.length
      = (ps.map fun p => p.flowers.length).sum + back.length ∧
    (∀ j, j < ps.length →
      (res.1.getD j default).hand.length = (ps.getD j default).hand.length ∧
      (res.1.getD j default).melds = (ps.getD j default).melds) := by
  induction order with
  | nil =>
    intro ps back res _ h
    simp only [List.foldlM_nil] at h
    injection h with h
    subst h
    exact ⟨rfl, rfl, fun j _ => ⟨rfl, rfl⟩⟩
  | cons r rs ih =>
    intro ps back res hmem h
    rw [List.foldlM_cons] at h
    rcases hr : flower_round (ps, back) r with _ | st1 <;> rw [hr] at h
    · exact Option.noConfusion h
    obtain ⟨ps1, b1⟩ := st1
    replace h : rs.foldlM flower_round (ps1, b1) = some res := h
    obtain ⟨d1, d2, d3⟩ :=
      flower_round_spec ps back r (ps1, b1) (hmem r (by simp)) hr
    replace d1 : ps1.length = ps.length := d1
    replace d2 : (List.map (fun p => p.flowers.length) ps1).sum + b1.length
        = (List.map (fun p => p.flowers.length) ps).sum + back.length := d2
    replace d3 : ∀ j, j < ps.length →
        (ps1.getD j default).hand.length = (ps.getD j default).hand.length ∧
        (ps1.getD j default).melds = (ps.getD j default).melds := d3
    obtain ⟨f1, f2, f3⟩ := ih ps1 b1 res
      (fun x hx => by rw [d1]; exact hmem x (List.mem_cons_of_mem r hx)) h
    refine ⟨by rw [f1, d1], by omega, ?_⟩
    intro j hj
    have hj1 : j < ps1.length := by omega
    obtain ⟨g1, g2⟩ := f3 j hj1
    obtain ⟨e1, e2⟩ := d3 j hj
    exact ⟨by rw [g1, e1], by rw [g2, e2]⟩

theorem sum_map_four (f : Player → Nat) (l : List Player) (h : l.length = 4) :
    (l.map f).sum = f (l.getD 0 default) + f (l.getD 1 default) +
      f (l.getD 2 default) + f (l.getD 3 default) := by
  match l, h with
  | [a, b, c, d], _ =>
    simp [List.getD]
    omega

/-- `start_hand` establishes the session invariant. -/
theorem start_hand_inv (deck : List Tile) (s : Session) (hlen : deck.length = 144)
    (h : start_hand deck = some s) : Inv s := by
  unfold start_hand at h
  simp only [build_wall] at h
  rcases hdeal : deal_initial_hands new_game.dealerIndex new_game.players
      (deck.take (deck.length - RESERVED_COUNT)) with _ | ⟨ps1, wall1⟩ <;>
    rw [hdeal] at h
  · exact Option.noConfusion h
  simp only [Option.bind_eq_bind', Option.some_bind] at h
  rcases hflr : flower_replacement new_game.dealerIndex ps1
      (deck.drop (deck.length - RESERVED_COUNT)) with _ | ⟨ps2, back2⟩ <;>
    rw [hflr] at h
  · exact Option.noConfusion h
  simp only [Option.bind_eq_bind', Option.some_bind] at h
  injection h with h
  subst h
  -- Unpack the deal.
  unfold deal_initial_hands at hdeal
  have hord : ((List.range 4).map fun i => (new_game.dealerIndex + i) % 4)
      = [0, 1, 2, 3] := by decide
  rw [hord] at hdeal
  simp only [] at hdeal
  rcases hfold : List.foldlM deal_round
      (new_game.players, deck.take (deck.length - RESERVED_COUNT))
      ([0, 1, 2, 3] ++ [0, 1, 2, 3] ++ [0, 1, 2, 3] ++ [0, 1, 2, 3]) with _ | ⟨ps0, w0⟩ <;>
    rw [hfold] at hdeal
  · exact Option.noConfusion hdeal
  simp only [Option.bind_eq_bind', Option.some_bind] at hdeal
  rcases hw0 : w0 with _ | ⟨t, w3⟩ <;> rw [hw0] at hdeal
  · simp [draw_from_wall] at hdeal
  simp only [draw_from_wall, Option.bind_eq_bind', Option.some_bind] at hdeal
  injection hdeal with hdeal
  have hps1 : ps1 = ps0.set new_game.dealerIndex
      { ps0.getD new_game.dealerIndex default with
        hand := (ps0.getD new_game.dealerIndex default).hand ++ [t] } := by
    have := congrArg Prod.fst hdeal
    simpa using this.symm
  have hwall1 : wall1 = w3 := by
    have := congrArg Prod.snd hdeal
    simpa using this.symm
  have hnp4 : new_game.players.length = 4 := by decide
  obtain ⟨a1, a2, a3⟩ := deal_fold_spec _ new_game.players _ (ps0, w0)
    (by rw [hnp4]; decide) hfold
  replace a1 : ps0.length = new_game.players.length := a1
  replace a2 : w0.length + 4 * ([0, 1, 2, 3] ++ [0, 1, 2, 3] ++ [0, 1, 2, 3]
      ++ [0, 1, 2, 3] : List Nat).length
      = (deck.take (deck.length - RESERVED_COUNT)).length := a2
  replace a3 : ∀ j, j < new_game.players.length →
      (ps0.getD j default).hand.length
        = (new_game.players.getD j default).hand.length
          + 4 * ([0, 1, 2, 3] ++ [0, 1, 2, 3] ++ [0, 1, 2, 3]
              ++ [0, 1, 2, 3] : List Nat).count j ∧
      (ps0.getD j default).melds = (new_game.players.getD j default).melds ∧
      (ps0.getD j default).flowers = (new_game.players.getD j default).flowers := a3
  rw [hw0] at a2
  simp only [List.length_cons, List.length_append, List.length_nil] at a2
  have hwl : (deck.take (deck.length - RESERVED_COUNT)).length = 128 := by
    simp only [List.length_take, RESERVED_COUNT]
    omega
  have hbl : (deck.drop (deck.length - RESERVED_COUNT)).length = 16 := by
    simp only [List.length_drop, RESERVED_COUNT]
    omega
  rw [hwl] at a2
  -- Hand lengths after the deal.
  have hhand0 : ∀ j, j < 4 → (ps0.getD j default).hand.length = 16 := by
    intro j hj
    obtain ⟨b1, _, _⟩ := a3 j (by omega)
    rw [b1]
    have hng : (new_game.players.getD j default).hand.length = 0 := by
      interval_cases j <;> decide
    have hcnt : (([0, 1, 2, 3] ++ [0, 1, 2, 3] ++ [0, 1, 2, 3] ++ [0, 1, 2, 3]
        : List Nat).count j) = 4 := by
      interval_cases j <;> decide
    rw [hng, hcnt]
  have hmeld0 : ∀ j, j < 4 → (ps0.getD j default).melds = [] := by
    intro j hj
    obtain ⟨_, b2, _⟩ := a3 j (by omega)
    rw [b2]
    interval_cases j <;> decide
  have hflw0 : ∀ j, j < 4 → (ps0.getD j default).flowers = [] := by
    intro j hj
    obtain ⟨_, _, b3⟩ := a3 j (by omega)
    rw [b3]
    interval_cases j <;> decide
  -- Hand lengths after the dealer's extra tile.
  have hps1len : ps1.length = 4 := by rw [hps1]; simpa using a1
  have hdl : new_game.dealerIndex = 0 := rfl
  have hhand1 : ∀ j, j < 4 →
      (ps1.getD j default).hand.length = 16 + (if j = 0 then 1 else 0) := by
    intro j hj
    rw [hps1, hdl, getD_set_list ps0 0 _ (by rw [a1]; decide) j]
    by_cases hj0 : j = 0
    · subst hj0
      rw [if_pos rfl, if_pos rfl]
      show ((ps0.getD 0 default).hand ++ [t]).length = 16 + 1
      rw [List.length_append, hhand0 0 (by omega)]
      rfl
    · rw [if_neg hj0, if_neg hj0, Nat.add_zero]
      exact hhand0 j hj
  have hmeld1 : ∀ j, j < 4 → (ps1.getD j default).melds = [] := by
    intro j hj
    rw [hps1, hdl, getD_set_list ps0 0 _ (by rw [a1]; decide) j]
    by_cases hj0 : j = 0
    · subst hj0
      rw [if_pos rfl]
      show (ps0.getD 0 default).melds = []
      exact hmeld0 0 (by omega)
    · rw [if_neg hj0]
      exact hmeld0 j hj
  have hflw1 : ∀ j, j < 4 → (ps1.getD j default).flowers = [] := by
    intro j hj
    rw [hps1, hdl, getD_set_list ps0 0 _ (by rw [a1]; decide) j]
    by_cases hj0 : j = 0
    · subst hj0
      rw [if_pos rfl]
      show (ps0.getD 0 default).flowers = []
      exact hflw0 0 (by omega)
    · rw [if_neg hj0]
      exact hflw0 j hj
  -- Unpack the flower replacement.
  unfold flower_replacement at hflr
  rw [hord] at hflr
  simp only [] at hflr
  obtain ⟨c1, c2, c3⟩ := flower_fold_spec [0, 1, 2, 3] ps1 _ (ps2, back2)
    (by rw [hps1len]; decide) hflr
  replace c1 : ps2.length = ps1.length := c1
  replace c2 : (List.map (fun p => p.flowers.length) ps2).sum + back2.length
      = (List.map (fun p => p.flowers.length) ps1).sum
        + (deck.drop (deck.length - RESERVED_COUNT)).length := c2
  replace c3 : ∀ j, j < ps1.length →
      (ps2.getD j default).hand.length = (ps1.getD j default).hand.length ∧
      (ps2.getD j default).melds = (ps1.getD j default).melds := c3
  have hps2len : ps2.length = 4 := by rw [c1, hps1len]
  have hhand2 : ∀ j, j < 4 →
      (ps2.getD j default).hand.length = 16 + (if j = 0 then 1 else 0) := by
    intro j hj
    obtain ⟨e1, _⟩ := c3 j (by omega)
    rw [e1]
    exact hhand1 j hj
  have hmeld2 : ∀ j, j < 4 → (ps2.getD j default).melds = [] := by
    intro j hj
    obtain ⟨_, e2⟩ := c3 j (by omega)
    rw [e2]
    exact hmeld1 j hj
  have hfl1sum : (ps1.map fun p => p.flowers.length).sum = 0 := by
    rw [sum_map_four _ ps1 hps1len]
    rw [hflw1 0 (by omega), hflw1 1 (by omega), hflw1 2 (by omega),
      hflw1 3 (by omega)]
    rfl
  rw [hfl1sum, hbl] at c2
  -- Assemble the invariant.
  have hw3len : w3.length = 63 := by omega
  refine ⟨by simpa using hps2len, ?_, ?_, ?_, ?_⟩
  · show new_game.dealerIndex < 4
    decide
  · show ∀ dc, new_game.pendingDiscarder = some dc → dc < 4
    intro dc hdc
    cases hdc
  · -- zoneCount
    have hz0 : playerZone (ps2.getD 0 default)
        = 17 + (ps2.getD 0 default).flowers.length := by
      simp only [playerZone, meldTileCount]
      rw [hmeld2 0 (by omega), hhand2 0 (by omega)]
      rfl
    have hz1 : playerZone (ps2.getD 1 default)
        = 16 + (ps2.getD 1 default).flowers.length := by
      simp only [playerZone, meldTileCount]
      rw [hmeld2 1 (by omega), hhand2 1 (by omega)]
      rfl
    have hz2 : playerZone (ps2.getD 2 default)
        = 16 + (ps2.getD 2 default).flowers.length := by
      simp only [playerZone, meldTileCount]
      rw [hmeld2 2 (by omega), hhand2 2 (by omega)]
      rfl
    have hz3 : playerZone (ps2.getD 3 default)
        = 16 + (ps2.getD 3 default).flowers.length := by
      simp only [playerZone, meldTileCount]
      rw [hmeld2 3 (by omega), hhand2 3 (by omega)]
      rfl
    have hom : ∀ j, j < 4 → playerOpenMelds (ps2.getD j default) = 0 := by
      intro j hj
      simp only [playerOpenMelds]
      rw [hmeld2 j hj]
      rfl
    have hflsum : (List.map (fun p => p.flowers.length) ps2).sum
        = (ps2.getD 0 default).flowers.length + (ps2.getD 1 default).flowers.length
          + (ps2.getD 2 default).flowers.length + (ps2.getD 3 default).flowers.length := by
      have h5 := sum_map_four (fun p => p.flowers.length) ps2 hps2len
      simp only at h5
      exact h5
    rw [hflsum] at c2
    simp only [zoneCount, openMeldCount]
    rw [sum_map_four playerZone ps2 hps2len, sum_map_four playerOpenMelds ps2 hps2len]
    rw [hz0, hz1, hz2, hz3,
      hom 0 (by omega), hom 1 (by omega), hom 2 (by omega), hom 3 (by omega)]
    have hdp : new_game.discardPool.length = 0 := rfl
    rw [hwall1, hdp, hw3len]
    omega
  · intro _
    refine Or.inl ⟨rfl, rfl, rfl, ?_⟩
    intro i hi
    simp only [playerForm, getPlayer]
    rw [hmeld2 i hi, hhand2 i hi]
    simp only [List.length_nil, Nat.mul_zero, Nat.add_zero]
    by_cases hi0 : i = 0 <;> simp [hi0, hdl]

/-! ### Invariant: the step cases -/

theorem validate_added_kong_some (melds : List Meld) (t : Tile)
    (h : validate_added_kong melds t = true) :
    ∃ m2, upgrade_pong_meld melds t = some m2 := by
  induction melds with
  | nil => simp [validate_added_kong] at h
  | cons m rest ih =>
    unfold upgrade_pong_meld
    by_cases hc : m.type = MeldType.pong ∧ t ∈ m.tiles
    · rw [if_pos hc]
      exact ⟨_, rfl⟩
    · rw [if_neg hc]
      have h2 : validate_added_kong rest t = true := by
        simp only [validate_added_kong, List.any_cons, Bool.or_eq_true] at h
        rcases h with h | h
        · exact absurd (by simpa using h) hc
        · simpa [validate_added_kong] using h
      obtain ⟨m2, hm2⟩ := ih h2
      exact ⟨m :: m2, by rw [hm2]; rfl⟩

theorem filter_open_append (ms : List Meld) (meld : Meld) :
    ((ms ++ [meld]).filter fun m => decide (m.type ≠ MeldType.concealed_kong)).length
      = (ms.filter fun m => decide (m.type ≠ MeldType.concealed_kong)).length
        + (if meld.type = MeldType.concealed_kong then 0 else 1) := by
  rw [List.filter_append]
  by_cases h : meld.type = MeldType.concealed_kong <;> simp [List.filter, h]

theorem do_draw_nil (s : Session) (hw : s.wall = []) :
    do_draw s = { s with phase := Phase.draw } := by
  unfold do_draw
  split
  · rfl
  · rename_i t rest heq
    rw [hw] at heq
    cases heq

theorem do_draw_cons (s : Session) (t : Tile) (rest : List Tile)
    (hw : s.wall = t :: rest) :
    do_draw s =
      (if is_flower_tile t then
        draw_replacement
          { s with
            wall := rest
            players := s.players.set s.currentPlayer
              { getPlayer s s.currentPlayer with
                flowers := (getPlayer s s.currentPlayer).flowers ++ [t] } } s.currentPlayer
      else
        { s with
          wall := rest
          players := s.players.set s.currentPlayer
            { getPlayer s s.currentPlayer with
              hand := (getPlayer s s.currentPlayer).hand ++ [t] }
          justDrew := true
          afterKong := false
          subPhase := SubPhase.activeTurn
          lastAction := some LastAction.draw }) := by
  unfold do_draw
  split
  · rename_i heq
    rw [hw] at heq
    cases heq
  · rename_i t' rest' heq
    rw [hw] at heq
    cases heq
    rfl

/-- `_do_draw` preserves the invariant from a rest state. -/
theorem do_draw_inv (s : Session) (hInv : Inv s) (hph : s.phase = Phase.play)
    (hpd : s.pendingDiscard = none) (hpc : s.pendingDiscarder = none)
    (hsub : s.subPhase = SubPhase.activeTurn) (hjd : s.justDrew = false) :
    Inv (do_draw s) := by
  obtain ⟨h4, hcur, hdc, hzone, hplay⟩ := hInv
  have hforms : ∀ i, i < 4 → playerForm (getPlayer s i) = 16 := by
    rcases hplay hph with ⟨_, _, _, hf⟩ | ⟨d, dc, hd, _⟩
    · intro i hi
      rw [hf i hi, hjd]
      simp
    · rw [hpd] at hd
      cases hd
  rcases hw : s.wall with _ | ⟨t, rest⟩
  · rw [do_draw_nil s hw]
    refine ⟨by simpa using h4, by simpa using hcur, by simpa using hdc, ?_, ?_⟩
    · simpa [zoneCount, openMeldCount] using hzone
    · intro hp
      simp at hp
  · rw [do_draw_cons s t rest hw]
    by_cases hfl : is_flower_tile t
    · rw [if_pos hfl]
      set s1 : Session :=
        { s with
          wall := rest
          players := s.players.set s.currentPlayer
            { getPlayer s s.currentPlayer with
              flowers := (getPlayer s s.currentPlayer).flowers ++ [t] } } with hs1
      have h41 : s1.players.length = 4 := by simp [hs1, h4]
      have hgp1 : ∀ j, getPlayer s1 j =
          if j = s.currentPlayer then
            { getPlayer s s.currentPlayer with
              flowers := (getPlayer s s.currentPlayer).flowers ++ [t] }
          else getPlayer s j := by
        intro j
        simp only [hs1, getPlayer]
        exact getD_set_list s.players s.currentPlayer _ (by omega) j
      obtain ⟨z1, z2, z3, z4, z5, z6, z7, z8⟩ :=
        draw_replacement_spec s1 s.currentPlayer h41 (by omega)
      have hzone1 : zoneCount s1 = zoneCount s := by
        simp only [zoneCount, hs1, hw]
        rw [zone_flower_bump s s.currentPlayer t (by omega)]
        simp only [List.length_cons]
        omega
      have hopen1 : openMeldCount s1 = openMeldCount s := by
        refine openMeldCount_eq_of s s1 h4 h41 ?_
        intro i hi
        rw [hgp1 i]
        by_cases hic : i = s.currentPlayer <;> simp [hic]
      have hopen2 : openMeldCount (draw_replacement s1 s.currentPlayer)
          = openMeldCount s1 := by
        refine openMeldCount_eq_of s1 _ h41 z2 ?_
        intro i hi
        exact z3 i hi
      refine ⟨z2, by rwa [z5, hs1], ?_, by rw [z1, hzone1, hzone, hopen2, hopen1], ?_⟩
      · intro dc2 hdc2
        rw [z7] at hdc2
        simp [hs1, hpc] at hdc2
      · intro hp2
        rcases z8 with ⟨zp, _⟩ | ⟨zp, zj, zs, zh⟩
        · rw [hp2] at zp
          cases zp
        · left
          refine ⟨by rw [z6]; simpa [hs1] using hpd,
            by rw [z7]; simpa [hs1] using hpc, zs, ?_⟩
          intro i hi
          rw [z5]
          have hcur1 : s1.currentPlayer = s.currentPlayer := by simp [hs1]
          rw [hcur1]
          by_cases hic : i = s.currentPlayer
          · subst hic
            rw [if_pos ⟨rfl, zj⟩]
            have := zh
            simp only [playerForm]
            rw [zh, hgp1 s.currentPlayer]
            simp only [if_pos rfl]
            have hf := hforms s.currentPlayer (by omega)
            simp only [playerForm] at hf
            have hmelds := z3 s.currentPlayer (by omega)
            rw [hmelds, hgp1 s.currentPlayer]
            simp only [if_pos rfl]
            simp
            omega
          · rw [if_neg (by intro hcon; exact hic hcon.1)]
            have hh := z4 i hi hic
            have hm := z3 i hi
            simp only [playerForm]
            rw [hh, hm, hgp1 i, if_neg hic]
            have hf := hforms i hi
            simpa [playerForm] using hf
    · rw [if_neg hfl]
      set s1 : Session :=
        { s with
          wall := rest
          players := s.players.set s.currentPlayer
            { getPlayer s s.currentPlayer with
              hand := (getPlayer s s.currentPlayer).hand ++ [t] }
          justDrew := true
          afterKong := false
          subPhase := SubPhase.activeTurn
          lastAction := some LastAction.draw } with hs1
      have h41 : s1.players.length = 4 := by simp [hs1, h4]
      have hgp1 : ∀ j, getPlayer s1 j =
          if j = s.currentPlayer then
            { getPlayer s s.currentPlayer with
              hand := (getPlayer s s.currentPlayer).hand ++ [t] }
          else getPlayer s j := by
        intro j
        simp only [hs1, getPlayer]
        exact getD_set_list s.players s.currentPlayer _ (by omega) j
      have hz1 : zoneCount s1 = zoneCount s := by
        simp only [zoneCount, hs1]
        rw [zone_hand_bump s s.currentPlayer t (by omega)]
        have hwlen : s.wall.length = rest.length + 1 := by rw [hw]; rfl
        omega
      have hop1 : openMeldCount s1 = openMeldCount s := by
        refine openMeldCount_eq_of s s1 h4 h41 ?_
        intro i hi
        rw [hgp1 i]
        by_cases hic : i = s.currentPlayer <;> simp [hic]
      refine ⟨h41, by simpa [hs1] using hcur, ?_, by rw [hz1, hop1, hzone], ?_⟩
      · intro dc2 hdc2
        rw [show s1.pendingDiscarder = s.pendingDiscarder from rfl, hpc] at hdc2
        cases hdc2
      · intro _
        left
        refine ⟨by simpa [hs1] using hpd, by simpa [hs1] using hpc, rfl, ?_⟩
        intro i hi
        have hcur1 : s1.currentPlayer = s.currentPlayer := rfl
        have hjd1 : s1.justDrew = true := rfl
        rw [hcur1, hjd1, hgp1 i]
        by_cases hic : i = s.currentPlayer
        · subst hic
          rw [if_pos rfl, if_pos ⟨rfl, rfl⟩]
          have hf := hforms s.currentPlayer hi
          simp only [playerForm] at hf ⊢
          simp
          omega
        · rw [if_neg hic, if_neg (by intro hcon; exact hic hcon.1)]
          have hf := hforms i hi
          simpa [playerForm] using hf

/-- `_do_discard` moves the discarded tile from the hand to the pool and
opens the claim window, preserving the invariant. -/
theorem do_discard_inv (s : Session) (a : Action) (s2 : Session) (hInv : Inv s)
    (hph : s.phase = Phase.play) (hpd : s.pendingDiscard = none)
    (hjd : s.justDrew = true) (h : do_discard s a = some s2) : Inv s2 := by
  obtain ⟨h4, hcur, hdc, hzone, hplay⟩ := hInv
  have hforms : ∀ i, i < 4 → playerForm (s.players.getD i default)
      = 16 + (if i = s.currentPlayer then 1 else 0) := by
    rcases hplay hph with ⟨_, _, _, hf⟩ | ⟨d, dc, hd, _⟩
    · intro i hi
      have := hf i hi
      simp only [getPlayer] at this
      rw [this, hjd]
      by_cases hic : i = s.currentPlayer <;> simp [hic]
    · rw [hpd] at hd
      cases hd
  rcases hti : a.tile with _ | t
  · unfold do_discard at h
    rw [hti] at h
    exact Option.noConfusion h
  · unfold do_discard at h
    rw [hti] at h
    simp only [Option.bind_eq_bind', Option.some_bind] at h
    rcases hrf : removeFirst (getPlayer s s.currentPlayer).hand t with _ | hand2 <;>
      rw [hrf] at h
    · exact Option.noConfusion h
    · simp only [Option.some_bind] at h
      injection h with h
      rw [← h]
      have hlen := removeFirst_some_length _ _ _ hrf
      simp only [getPlayer] at hlen
      set npl : Player :=
        { getPlayer s s.currentPlayer with
          hand := hand2
          discards := (getPlayer s s.currentPlayer).discards ++ [t] } with hnpl
      show Inv
        { s with
          players := s.players.set s.currentPlayer npl
          discardPool := s.discardPool ++ [t]
          lastDiscard := some t
          lastAction := some LastAction.discard
          pendingDiscard := some t
          pendingDiscarder := some s.currentPlayer
          justDrew := false
          afterKong := false
          subPhase := SubPhase.claim }
      have hznpl : playerZone npl + 1 = playerZone (s.players.getD s.currentPlayer default) := by
        rw [hnpl]
        simp only [playerZone, meldTileCount, getPlayer]
        omega
      have hopnpl : playerOpenMelds npl
          = playerOpenMelds (s.players.getD s.currentPlayer default) := by
        rw [hnpl]
        simp [playerOpenMelds, getPlayer]
      have hfnpl : playerForm npl + 1
          = playerForm (s.players.getD s.currentPlayer default) := by
        rw [hnpl]
        simp only [playerForm, getPlayer]
        omega
      have hs1 := sum_map_players_set playerZone s.players s.currentPlayer npl (by omega)
      have hs2 := sum_map_players_set playerOpenMelds s.players s.currentPlayer npl (by omega)
      refine ⟨by simp [h4], hcur, ?_, ?_, ?_⟩
      · intro dc2 hdc2
        injection hdc2 with hdc2
        omega
      · simp only [zoneCount, openMeldCount] at hzone ⊢
        simp only [List.length_append, List.length_cons, List.length_nil]
        omega
      · intro _
        right
        refine ⟨t, s.currentPlayer, rfl, rfl, hcur, rfl, rfl, ?_⟩
        intro i hi
        show playerForm ((s.players.set s.currentPlayer npl).getD i default) = 16
        rw [getD_set_list s.players s.currentPlayer npl (by omega) i]
        by_cases hic : i = s.currentPlayer
        · rw [if_pos hic]
          have := hforms s.currentPlayer (by omega)
          rw [if_pos rfl] at this
          omega
        · rw [if_neg hic]
          have := hforms i hi
          rw [if_neg hic] at this
          omega

/-- Claiming a discard into a 3-tile meld (chi or pong) preserves the
invariant: the discard stays in the pool, so the visible count rises by one
together with the open-meld count. -/
theorem claim_capture_inv (s : Session) (c : Nat) (npl : Player)
    (la : Option LastAction)
    (h4 : s.players.length = 4) (hc : c < 4)
    (hzone : zoneCount s = 144 + openMeldCount s)
    (hforms : ∀ i, i < 4 → playerForm (s.players.getD i default) = 16)
    (hznpl : playerZone npl = playerZone (s.players.getD c default) + 1)
    (hopnpl : playerOpenMelds npl = playerOpenMelds (s.players.getD c default) + 1)
    (hfnpl : playerForm npl = playerForm (s.players.getD c default) + 1) :
    Inv { s with
          players := s.players.set c npl
          currentPlayer := c
          lastAction := la
          pendingDiscard := none
          pendingDiscarder := none
          passedPlayers := []
          justDrew := true
          subPhase := SubPhase.activeTurn } := by
  have hs1 := sum_map_players_set playerZone s.players c npl (by omega)
  have hs2 := sum_map_players_set playerOpenMelds s.players c npl (by omega)
  refine ⟨by simp [h4], hc, ?_, ?_, ?_⟩
  · intro dc2 hdc2
    exact Option.noConfusion hdc2
  · simp only [zoneCount, openMeldCount] at hzone ⊢
    omega
  · intro _
    left
    refine ⟨rfl, rfl, rfl, ?_⟩
    intro i hi
    show playerForm ((s.players.set c npl).getD i default)
      = 16 + (if i = c ∧ true = true then 1 else 0)
    rw [getD_set_list s.players c npl (by omega) i]
    by_cases hic : i = c
    · rw [if_pos hic, if_pos ⟨hic, rfl⟩, hfnpl, hforms c (by omega)]
    · rw [if_neg hic, if_neg (by intro hcon; exact hic hcon.1)]
      have := hforms i hi
      omega

/-- After declaring a kong (of any variety) the session draws a replacement
tile; starting from a rest shape with all hand forms at 16 this restores the
invariant. -/
theorem kong_replacement_inv (s1 : Session) (c : Nat)
    (h4 : s1.players.length = 4) (hc : c < 4)
    (hcur : s1.currentPlayer = c)
    (hzone1 : zoneCount s1 = 144 + openMeldCount s1)
    (hpd1 : s1.pendingDiscard = none) (hpc1 : s1.pendingDiscarder = none)
    (hforms1 : ∀ i, i < 4 → playerForm (s1.players.getD i default) = 16) :
    Inv (draw_replacement s1 c) := by
  obtain ⟨z1, z2, z3, z4, z5, z6, z7, z8⟩ := draw_replacement_spec s1 c h4 hc
  have hopen : openMeldCount (draw_replacement s1 c) = openMeldCount s1 :=
    openMeldCount_eq_of s1 _ h4 z2 z3
  refine ⟨z2, by rw [z5, hcur]; omega, ?_, by rw [z1, hopen]; exact hzone1, ?_⟩
  · intro dc2 hdc2
    rw [z7, hpc1] at hdc2
    cases hdc2
  · intro hp2
    rcases z8 with ⟨zp, _⟩ | ⟨_, zj, zs, zh⟩
    · rw [hp2] at zp
      cases zp
    · left
      refine ⟨by rw [z6, hpd1], by rw [z7, hpc1], zs, ?_⟩
      intro i hi
      rw [z5, hcur]
      by_cases hic : i = c
      · rw [if_pos ⟨hic, zj⟩, hic]
        have hm := congrArg List.length (z3 c hc)
        have hf := hforms1 c hc
        simp only [playerForm, getPlayer] at zh hm hf ⊢
        omega
      · rw [if_neg (by intro hcon; exact hic hcon.1)]
        have hh := congrArg List.length (z4 i hi hic)
        have hm := congrArg List.length (z3 i hi)
        have hf := hforms1 i hi
        simp only [playerForm, getPlayer] at hh hm hf ⊢
        omega

/-- `_do_pass` preserves the invariant. -/
theorem do_pass_inv (s : Session) (p : Nat) (s2 : Session) (hInv : Inv s)
    (hph : s.phase = Phase.play) (h : do_pass s p = some s2) : Inv s2 := by
  obtain ⟨h4, hcur, hdcb, hzone, hplay⟩ := hInv
  unfold do_pass at h
  rcases hplay hph with ⟨hn1, hn2, _⟩ | ⟨d2, dc2, hd2, hdc2, hlt2, hsub2, hjd2, hforms⟩
  · rw [hn2] at h
    exact Option.noConfusion h
  · rw [hdc2] at h
    replace h : (if ((List.range 4).filter fun i => decide (i ≠ dc2)).all
          (fun i => decide (i ∈ if p ∈ s.passedPlayers then s.passedPlayers
            else p :: s.passedPlayers)) then
        some { s with
               pendingDiscard := none
               pendingDiscarder := none
               passedPlayers := []
               subPhase := SubPhase.activeTurn
               justDrew := false
               currentPlayer := (dc2 + 1) % 4
               lastAction := some LastAction.pass }
      else
        some { s with
               pendingDiscarder := some dc2
               passedPlayers := if p ∈ s.passedPlayers then s.passedPlayers
                 else p :: s.passedPlayers }) = some s2 := h
    by_cases hall : (((List.range 4).filter fun i => decide (i ≠ dc2)).all
        (fun i => decide (i ∈ if p ∈ s.passedPlayers then s.passedPlayers
          else p :: s.passedPlayers))) = true
    · rw [if_pos hall] at h
      injection h with h
      rw [← h]
      refine ⟨h4, by show (dc2 + 1) % 4 < 4; omega, ?_, ?_, ?_⟩
      · intro dc3 hdc3
        exact Option.noConfusion hdc3
      · simpa [zoneCount, openMeldCount] using hzone
      · intro _
        left
        refine ⟨rfl, rfl, rfl, ?_⟩
        intro i hi
        rw [if_neg (by intro hcon; exact Bool.noConfusion hcon.2)]
        have := hforms i hi
        simpa [playerForm, getPlayer] using this
    · rw [if_neg hall] at h
      injection h with h
      rw [← h]
      refine ⟨h4, hcur, ?_, ?_, ?_⟩
      · intro dc3 hdc3
        injection hdc3 with e
        omega
      · simpa [zoneCount, openMeldCount] using hzone
      · intro _
        right
        refine ⟨d2, dc2, hd2, rfl, hlt2, hsub2, hjd2, ?_⟩
        intro i hi
        have := hforms i hi
        simpa [playerForm, getPlayer] using this

theorem chi_combo_length (hand : List Tile) (d : Tile) (combo : List Tile)
    (h : combo ∈ get_chi_combinations hand d) : combo.length = 3 := by
  obtain ⟨su, v⟩ | _ | _ | _ | _ | _ | _ | _ | i := d
  · have h2 := mem_dedupKeepFirst _ _ h
    simp only [List.mem_filterMap, List.mem_range] at h2
    obtain ⟨off, hoff, hcombo⟩ := h2
    by_cases hguard : v ≤ off ∨ 9 < v - off + 2
    · rw [if_pos hguard] at hcombo
      cases hcombo
    rw [if_neg hguard] at hcombo
    split at hcombo
    · simp only [Option.some_inj] at hcombo
      subst hcombo
      rfl
    · cases hcombo
  all_goals simp [get_chi_combinations] at h

theorem do_win_inv (s : Session) (hInv : Inv s) : Inv (do_win s) := by
  obtain ⟨h4, hcur, hdc, hzone, _⟩ := hInv
  refine ⟨h4, hcur, hdc, by simpa [zoneCount, openMeldCount, do_win] using hzone, ?_⟩
  intro hp
  simp [do_win] at hp

theorem find_claimer_lt (s : Session) (d : Tile) (mc c : Nat)
    (h : find_claimer s d mc = some c) : c < 4 := by
  unfold find_claimer at h
  rcases hdc : s.pendingDiscarder with _ | dc <;> rw [hdc] at h
  · exact Option.noConfusion h
  · simp only [Option.bind_eq_bind', Option.some_bind] at h
    rcases hf : ([1, 2, 3] : List Nat).find? (fun off =>
        decide (mc ≤ (getPlayer s ((dc + off) % 4)).hand.count d)) with _ | off <;>
      rw [hf] at h
    · exact Option.noConfusion h
    · injection h with h
      omega

/-- `_do_chi` preserves the invariant. -/
theorem do_chi_inv (s : Session) (a : Action) (s2 : Session) (hInv : Inv s)
    (hph : s.phase = Phase.play) (d : Tile) (dc : Nat) (combo : List Tile)
    (hpd : s.pendingDiscard = some d) (hpc : s.pendingDiscarder = some dc)
    (hti : a.tile = some d) (hco : a.combo = some combo)
    (hcombo : combo ∈ get_chi_combinations (getPlayer s ((dc + 1) % 4)).hand d)
    (h : do_chi s a = some s2) : Inv s2 := by
  obtain ⟨h4, hcur, hdcb, hzone, hplay⟩ := hInv
  rcases hplay hph with ⟨hn1, _⟩ | ⟨d2, dc2, hd2, hdc2, hlt2, hsub2, hjd2, hforms⟩
  · rw [hpd] at hn1
    cases hn1
  unfold do_chi at h
  rw [hti, hco, hpc] at h
  simp only [Option.bind_eq_bind', Option.some_bind] at h
  rcases hrc : removeCombo (getPlayer s ((dc + 1) % 4)).hand combo d with _ | h2 <;>
    rw [hrc] at h
  · exact Option.noConfusion h
  simp only [Option.some_bind] at h
  injection h with h
  rw [← h]
  have hlen := removeCombo_length _ _ _ _ hrc
  rw [chi_combo_filter_length _ _ _ hcombo] at hlen
  have hclen := chi_combo_length _ _ _ hcombo
  simp only [getPlayer] at hlen
  set npl : Player :=
    { getPlayer s ((dc + 1) % 4) with
      hand := h2
      melds := (getPlayer s ((dc + 1) % 4)).melds ++
        [{ type := MeldType.chi, tiles := combo, fromPlayer := some dc }] } with hnpl
  show Inv
    { s with
      players := s.players.set ((dc + 1) % 4) npl
      currentPlayer := (dc + 1) % 4
      lastAction := some LastAction.chi
      pendingDiscard := none
      pendingDiscarder := none
      passedPlayers := []
      justDrew := true
      subPhase := SubPhase.activeTurn }
  refine claim_capture_inv s ((dc + 1) % 4) npl (some LastAction.chi) h4 (by omega)
    hzone ?_ ?_ ?_ ?_
  · intro i hi
    have := hforms i hi
    simpa [playerForm, getPlayer] using this
  · rw [hnpl]
    simp only [playerZone, meldTileCount, getPlayer, List.map_append, List.sum_append,
      List.map_cons, List.map_nil, List.sum_cons, List.sum_nil]
    simp only [hclen]
    omega
  · rw [hnpl]
    simp only [playerOpenMelds, getPlayer]
    rw [filter_open_append]
    simp
  · rw [hnpl]
    simp only [playerForm, getPlayer, List.length_append, List.length_cons,
      List.length_nil]
    omega

/-- `_do_pong` preserves the invariant. -/
theorem do_pong_inv (s : Session) (a : Action) (s2 : Session) (hInv : Inv s)
    (hph : s.phase = Phase.play) (d : Tile) (dc : Nat)
    (hpd : s.pendingDiscard = some d) (hpc : s.pendingDiscarder = some dc)
    (h : do_pong s a = some s2) : Inv s2 := by
  obtain ⟨h4, hcur, hdcb, hzone, hplay⟩ := hInv
  rcases hplay hph with ⟨hn1, _⟩ | ⟨d2, dc2, hd2, hdc2, hlt2, hsub2, hjd2, hforms⟩
  · rw [hpd] at hn1
    cases hn1
  unfold do_pong at h
  rw [hpd, hpc] at h
  simp only [Option.bind_eq_bind', Option.some_bind] at h
  rcases hfc : find_claimer s d 2 with _ | c <;> rw [hfc] at h
  · exact Option.noConfusion h
  simp only [Option.some_bind] at h
  rcases hrt : removeTimes (getPlayer s c).hand d 2 with _ | h2 <;> rw [hrt] at h
  · exact Option.noConfusion h
  simp only [Option.some_bind] at h
  injection h with h
  rw [← h]
  have hc := find_claimer_lt s d 2 c hfc
  have hlen := removeTimes_length _ _ _ _ hrt
  simp only [getPlayer] at hlen
  set npl : Player :=
    { getPlayer s c with
      hand := h2
      melds := (getPlayer s c).melds ++
        [{ type := MeldType.pong, tiles := [d, d, d], fromPlayer := some dc }] } with hnpl
  show Inv
    { s with
      players := s.players.set c npl
      currentPlayer := c
      lastAction := some LastAction.pong
      pendingDiscard := none
      pendingDiscarder := none
      passedPlayers := []
      justDrew := true
      subPhase := SubPhase.activeTurn }
  refine claim_capture_inv s c npl (some LastAction.pong) h4 hc hzone ?_ ?_ ?_ ?_
  · intro i hi
    have := hforms i hi
    simpa [playerForm, getPlayer] using this
  · rw [hnpl]
    simp only [playerZone, meldTileCount, getPlayer, List.map_append, List.sum_append,
      List.map_cons, List.map_nil, List.sum_cons, List.sum_nil, List.length_cons,
      List.length_nil]
    omega
  · rw [hnpl]
    simp only [playerOpenMelds, getPlayer]
    rw [filter_open_append]
    simp
  · rw [hnpl]
    simp only [playerForm, getPlayer, List.length_append, List.length_cons,
      List.length_nil]
    omega

/-- `_do_open_kong` preserves the invariant. -/
theorem do_open_kong_inv (s : Session) (a : Action) (s2 : Session) (hInv : Inv s)
    (hph : s.phase = Phase.play) (d : Tile) (dc : Nat)
    (hpd : s.pendingDiscard = some d) (hpc : s.pendingDiscarder = some dc)
    (h : do_open_kong s a = some s2) : Inv s2 := by
  obtain ⟨h4, hcur, hdcb, hzone, hplay⟩ := hInv
  rcases hplay hph with ⟨hn1, _⟩ | ⟨d2, dc2, hd2, hdc2, hlt2, hsub2, hjd2, hforms⟩
  · rw [hpd] at hn1
    cases hn1
  unfold do_open_kong at h
  rw [hpd, hpc] at h
  simp only [] at h
  rw [if_pos hsub2] at h
  simp only [Option.bind_eq_bind', Option.some_bind] at h
  rcases hfc : find_claimer s d 3 with _ | c <;> rw [hfc] at h
  · exact Option.noConfusion h
  simp only [Option.some_bind] at h
  rcases hrt : removeTimes (getPlayer s c).hand d 3 with _ | h2 <;> rw [hrt] at h
  · exact Option.noConfusion h
  simp only [Option.some_bind] at h
  injection h with h
  rw [← h]
  have hc := find_claimer_lt s d 3 c hfc
  have hlen := removeTimes_length _ _ _ _ hrt
  simp only [getPlayer] at hlen
  set npl : Player :=
    { getPlayer s c with
      hand := h2
      melds := (getPlayer s c).melds ++
        [{ type := MeldType.open_kong, tiles := [d, d, d, d],
           fromPlayer := some dc }] } with hnpl
  show Inv (draw_replacement
    { s with
      players := s.players.set c npl
      currentPlayer := c
      lastAction := some LastAction.openKong
      pendingDiscard := none
      pendingDiscarder := none
      passedPlayers := []
      justDrew := false
      subPhase := SubPhase.activeTurn } c)
  have hznpl : playerZone npl = playerZone (s.players.getD c default) + 1 := by
    rw [hnpl]
    simp only [playerZone, meldTileCount, getPlayer, List.map_append, List.sum_append,
      List.map_cons, List.map_nil, List.sum_cons, List.sum_nil, List.length_cons,
      List.length_nil]
    omega
  have hopnpl : playerOpenMelds npl = playerOpenMelds (s.players.getD c default) + 1 := by
    rw [hnpl]
    simp only [playerOpenMelds, getPlayer]
    rw [filter_open_append]
    simp
  have hfnpl : playerForm npl = playerForm (s.players.getD c default) := by
    rw [hnpl]
    simp only [playerForm, getPlayer, List.length_append, List.length_cons,
      List.length_nil]
    omega
  have hs1 := sum_map_players_set playerZone s.players c npl (by omega)
  have hs2 := sum_map_players_set playerOpenMelds s.players c npl (by omega)
  refine kong_replacement_inv _ c (by simp [h4]) hc rfl ?_ rfl rfl ?_
  · simp only [zoneCount, openMeldCount] at hzone ⊢
    omega
  · intro i hi
    show playerForm ((s.players.set c npl).getD i default) = 16
    rw [getD_set_list s.players c npl (by omega) i]
    by_cases hic : i = c
    · rw [if_pos hic, hfnpl]
      have := hforms c (by omega)
      simpa [playerForm, getPlayer] using this
    · rw [if_neg hic]
      have := hforms i hi
      simpa [playerForm, getPlayer] using this

/-- `_do_concealed_kong` preserves the invariant. -/
theorem do_concealed_kong_inv (s : Session) (a : Action) (s2 : Session)
    (hInv : Inv s) (hph : s.phase = Phase.play)
    (hpd : s.pendingDiscard = none) (hjd : s.justDrew = true)
    (h : do_concealed_kong s a = some s2) : Inv s2 := by
  obtain ⟨h4, hcur, hdcb, hzone, hplay⟩ := hInv
  rcases hplay hph with ⟨hn1, hn2, hsub, hforms⟩ | ⟨d2, dc2, hd2, _⟩
  swap
  · rw [hpd] at hd2
    cases hd2
  unfold do_concealed_kong at h
  rcases hti : a.tile with _ | t <;> rw [hti] at h
  · exact Option.noConfusion h
  simp only [Option.bind_eq_bind', Option.some_bind] at h
  rcases hrt : removeTimes (getPlayer s s.currentPlayer).hand t 4 with _ | h2 <;>
    rw [hrt] at h
  · exact Option.noConfusion h
  simp only [Option.some_bind] at h
  injection h with h
  rw [← h]
  have hlen := removeTimes_length _ _ _ _ hrt
  simp only [getPlayer] at hlen
  set npl : Player :=
    { getPlayer s s.currentPlayer with
      hand := h2
      melds := (getPlayer s s.currentPlayer).melds ++
        [{ type := MeldType.concealed_kong, tiles := [t, t, t, t],
           fromPlayer := none }] } with hnpl
  show Inv (draw_replacement
    { s with
      players := s.players.set s.currentPlayer npl
      lastAction := some LastAction.concealedKong
      justDrew := false
      subPhase := SubPhase.activeTurn } s.currentPlayer)
  have hfcur : playerForm (s.players.getD s.currentPlayer default) = 17 := by
    have := hforms s.currentPlayer (by omega)
    rw [if_pos ⟨rfl, hjd⟩] at this
    simpa [playerForm, getPlayer] using this
  have hznpl : playerZone npl = playerZone (s.players.getD s.currentPlayer default) := by
    rw [hnpl]
    simp only [playerZone, meldTileCount, getPlayer, List.map_append, List.sum_append,
      List.map_cons, List.map_nil, List.sum_cons, List.sum_nil, List.length_cons,
      List.length_nil]
    omega
  have hopnpl : playerOpenMelds npl
      = playerOpenMelds (s.players.getD s.currentPlayer default) := by
    rw [hnpl]
    simp only [playerOpenMelds, getPlayer]
    rw [filter_open_append]
    simp
  have hfnpl : playerForm npl + 1 = playerForm (s.players.getD s.currentPlayer default) := by
    rw [hnpl]
    simp only [playerForm, getPlayer, List.length_append, List.length_cons,
      List.length_nil]
    omega
  have hs1 := sum_map_players_set playerZone s.players s.currentPlayer npl (by omega)
  have hs2 := sum_map_players_set playerOpenMelds s.players s.currentPlayer npl (by omega)
  refine kong_replacement_inv _ s.currentPlayer (by simp [h4]) hcur rfl ?_
    (by simpa using hpd) (by simpa using hn2) ?_
  · simp only [zoneCount, openMeldCount] at hzone ⊢
    omega
  · intro i hi
    show playerForm ((s.players.set s.currentPlayer npl).getD i default) = 16
    rw [getD_set_list s.players s.currentPlayer npl (by omega) i]
    by_cases hic : i = s.currentPlayer
    · rw [if_pos hic]
      omega
    · rw [if_neg hic]
      have := hforms i hi
      rw [if_neg (by intro hcon; exact hic hcon.1)] at this
      simpa [playerForm, getPlayer] using this

/-- `_do_added_kong` preserves the invariant (for a validated tile). -/
theorem do_added_kong_inv (s : Session) (a : Action) (s2 : Session)
    (hInv : Inv s) (hph : s.phase = Phase.play)
    (hpd : s.pendingDiscard = none) (hjd : s.justDrew = true)
    (t : Tile) (hti : a.tile = some t)
    (hval : validate_added_kong (getPlayer s s.currentPlayer).melds t = true)
    (h : do_added_kong s a = some s2) : Inv s2 := by
  obtain ⟨h4, hcur, hdcb, hzone, hplay⟩ := hInv
  rcases hplay hph with ⟨hn1, hn2, hsub, hforms⟩ | ⟨d2, dc2, hd2, _⟩
  swap
  · rw [hpd] at hd2
    cases hd2
  obtain ⟨melds2, hup⟩ := validate_added_kong_some _ _ hval
  obtain ⟨u1, u2, u3⟩ := upgrade_pong_meld_spec _ _ _ hup
  unfold do_added_kong at h
  rw [hti] at h
  simp only [Option.bind_eq_bind', Option.some_bind] at h
  rw [hup] at h
  simp only [Option.bind_eq_bind', Option.some_bind] at h
  rcases hrf : removeFirst (getPlayer s s.currentPlayer).hand t with _ | hand2 <;>
    rw [hrf] at h
  · exact Option.noConfusion h
  simp only [Option.some_bind] at h
  injection h with h
  rw [← h]
  have hlen := removeFirst_some_length _ _ _ hrf
  simp only [getPlayer] at hlen
  set npl : Player :=
    { getPlayer s s.currentPlayer with
      hand := hand2
      melds := melds2 } with hnpl
  show Inv (draw_replacement
    { s with
      players := s.players.set s.currentPlayer npl
      lastAction := some LastAction.addedKong
      justDrew := false
      subPhase := SubPhase.activeTurn } s.currentPlayer)
  have hfcur : playerForm (s.players.getD s.currentPlayer default) = 17 := by
    have := hforms s.currentPlayer (by omega)
    rw [if_pos ⟨rfl, hjd⟩] at this
    simpa [playerForm, getPlayer] using this
  have hznpl : playerZone npl = playerZone (s.players.getD s.currentPlayer default) := by
    rw [hnpl]
    simp only [playerZone, meldTileCount, getPlayer] at u2 ⊢
    omega
  have hopnpl : playerOpenMelds npl
      = playerOpenMelds (s.players.getD s.currentPlayer default) := by
    rw [hnpl]
    simp only [playerOpenMelds, getPlayer] at u3 ⊢
    omega
  have hfnpl : playerForm npl + 1 = playerForm (s.players.getD s.currentPlayer default) := by
    rw [hnpl]
    simp only [playerForm, getPlayer] at u1 ⊢
    rw [u1]
    omega
  have hs1 := sum_map_players_set playerZone s.players s.currentPlayer npl (by omega)
  have hs2 := sum_map_players_set playerOpenMelds s.players s.currentPlayer npl (by omega)
  refine kong_replacement_inv _ s.currentPlayer (by simp [h4]) hcur rfl ?_
    (by simpa using hpd) (by simpa using hn2) ?_
  · simp only [zoneCount, openMeldCount] at hzone ⊢
    omega
  · intro i hi
    show playerForm ((s.players.set s.currentPlayer npl).getD i default) = 16
    rw [getD_set_list s.players s.currentPlayer npl (by omega) i]
    by_cases hic : i = s.currentPlayer
    · rw [if_pos hic]
      omega
    · rw [if_neg hic]
      have := hforms i hi
      rw [if_neg (by intro hcon; exact hic hcon.1)] at this
      simpa [playerForm, getPlayer] using this

/-- Any legal step of the session preserves the invariant. -/
theorem stepE_inv (s : Session) (p : Nat) (a : Action) (s2 : Session)
    (hInv : Inv s) (hp : p < 4) (hleg : a ∈ get_legal_actions s p)
    (hstep : stepE s a = some s2) : Inv s2 := by
  have hph := get_legal_actions_play s p a hleg
  unfold stepE at hstep
  rw [if_neg (not_not_intro hph)] at hstep
  by_cases hcl : s.subPhase = SubPhase.claim ∧ s.pendingDiscard.isSome
  · obtain ⟨hnd, hca⟩ := get_legal_actions_claim_case s p a hleg hcl
    obtain ⟨d, dc, hpd, hpc, hnp, hpidx, hdisj⟩ := get_claim_actions_spec s p a hca
    rcases hdisj with ⟨hat, _⟩ | ⟨hat, hti, _⟩ | ⟨hat, hti, _⟩ |
        ⟨hat, hti, hpchi, combo, hco, hcombo⟩ | hat
    · rw [hat] at hstep
      replace hstep : some (do_win s) = some s2 := hstep
      injection hstep with hstep
      rw [← hstep]
      exact do_win_inv s hInv
    · rw [hat] at hstep
      replace hstep : do_open_kong s a = some s2 := hstep
      exact do_open_kong_inv s a s2 hInv hph d dc hpd hpc hstep
    · rw [hat] at hstep
      replace hstep : do_pong s a = some s2 := hstep
      exact do_pong_inv s a s2 hInv hph d dc hpd hpc hstep
    · rw [hat] at hstep
      replace hstep : do_chi s a = some s2 := hstep
      rw [hpchi] at hcombo
      exact do_chi_inv s a s2 hInv hph d dc combo hpd hpc hti hco hcombo hstep
    · rw [hat] at hstep
      rw [hpidx] at hstep
      replace hstep : do_pass s p = some s2 := hstep
      exact do_pass_inv s p s2 hInv hph hstep
  · obtain ⟨_, hpcur, hdisj⟩ := get_legal_actions_active_spec s p a hleg hcl
    have hactive : s.pendingDiscard = none ∧ s.pendingDiscarder = none ∧
        s.subPhase = SubPhase.activeTurn ∧
        ∀ i, i < 4 → playerForm (getPlayer s i)
          = 16 + (if i = s.currentPlayer ∧ s.justDrew = true then 1 else 0) := by
      obtain ⟨_, _, _, _, hplay⟩ := hInv
      rcases hplay hph with hA | ⟨d2, dc2, hd2, hdc2, hlt2, hsub2, _⟩
      · exact hA
      · exfalso
        exact hcl ⟨hsub2, by rw [hd2]; rfl⟩
    obtain ⟨hpd, hpc, hsub, hforms⟩ := hactive
    rcases hdisj with ⟨hle, hjdf, hda⟩ | ⟨hnd, hdisj2⟩
    · rw [hda] at hstep
      replace hstep : some (do_draw s) = some s2 := hstep
      injection hstep with hstep
      rw [← hstep]
      exact do_draw_inv s hInv hph hpd hpc hsub hjdf
    · have hjd : s.justDrew = true := by
        by_cases hjd : s.justDrew = true
        · exact hjd
        · exfalso
          apply hnd
          have hf := hforms p (by omega)
          rw [if_neg (by intro hcon; exact hjd hcon.2)] at hf
          simp only [playerForm] at hf
          constructor
          · omega
          · revert hjd
            cases s.justDrew <;> simp
      rcases hdisj2 with ⟨hat, _⟩ | ⟨hat, t, hti, hvc⟩ | ⟨hat, t, hti, hmem, hva⟩ |
          ⟨hat, t, hti, hmem⟩
      · rw [hat] at hstep
        replace hstep : some (do_win s) = some s2 := hstep
        injection hstep with hstep
        rw [← hstep]
        exact do_win_inv s hInv
      · rw [hat] at hstep
        replace hstep : do_concealed_kong s a = some s2 := hstep
        exact do_concealed_kong_inv s a s2 hInv hph hpd hjd hstep
      · rw [hat] at hstep
        replace hstep : do_added_kong s a = some s2 := hstep
        rw [hpcur] at hva
        exact do_added_kong_inv s a s2 hInv hph hpd hjd t hti hva hstep
      · rw [hat] at hstep
        replace hstep : do_discard s a = some s2 := hstep
        exact do_discard_inv s a s2 hInv hph hpd hjd hstep

/-- Every reachable session state satisfies the invariant. -/
theorem reachable_inv (s : Session) (h : Reachable s) : Inv s := by
  induction h with
  | start deck s hperm hstart =>
    refine start_hand_inv deck s ?_ hstart
    rw [hperm.length_eq]
    rfl
  | step s p a s2 _ hp hleg hstep ih => exact stepE_inv s p a s2 ih hp hleg hstep

/-! ### Concrete traces for the counterexamples and witnesses -/

theorem option_eq_some_getD {α : Type} (o : Option α) (x : α) (h : o.isSome = true) :
    o = some (o.getD x) := by
  cases o
  · cases h
  · rfl

def mj (v : Nat) : Tile := Tile.num Suit.m v
def pj (v : Nat) : Tile := Tile.num Suit.p v
def sj (v : Nat) : Tile := Tile.num Suit.s v

/-- A shuffled deck: the identity deck with two 5m/6m pairs swapped so that
the dealer holds a discardable 5m and player 1 can pong it. -/
def deck1 : List Tile :=
  (((full_deck_144.set 18 (mj 6)).set 19 (mj 6)).set 20 (mj 5)).set 21 (mj 5)

def c1_s0 : Session := (start_hand deck1).getD new_game

def c1_aDiscard : Action :=
  { type := ActionType.discard, tile := some (mj 5), combo := none, playerIdx := none }

def c1_s1 : Session := (stepE c1_s0 c1_aDiscard).getD new_game

def c1_aPong : Action :=
  { type := ActionType.pong, tile := some (mj 5), combo := none, playerIdx := some 1 }

def c1_s2 : Session := (stepE c1_s1 c1_aPong).getD new_game

unseal replace_flowers_for_player in
theorem c1_start : start_hand deck1 = some c1_s0 :=
  option_eq_some_getD _ _ (by decide)

theorem c1_reach0 : Reachable c1_s0 :=
  Reachable.start deck1 c1_s0 (by decide) c1_start

unseal replace_flowers_for_player decompose_sets find_pair_loop List.mergeSort List.merge in
theorem c1_leg1 : c1_aDiscard ∈ get_legal_actions c1_s0 0 := by decide

unseal replace_flowers_for_player in
theorem c1_step1 : stepE c1_s0 c1_aDiscard = some c1_s1 :=
  option_eq_some_getD _ _ (by decide)

theorem c1_reach1 : Reachable c1_s1 :=
  Reachable.step c1_s0 0 c1_aDiscard c1_s1 c1_reach0 (by omega) c1_leg1 c1_step1

unseal replace_flowers_for_player decompose_sets find_pair_loop List.mergeSort List.merge in
theorem c1_leg2 : c1_aPong ∈ get_legal_actions c1_s1 1 := by decide

unseal replace_flowers_for_player in
theorem c1_step2 : stepE c1_s1 c1_aPong = some c1_s2 :=
  option_eq_some_getD _ _ (by decide)

theorem c1_reach2 : Reachable c1_s2 :=
  Reachable.step c1_s1 1 c1_aPong c1_s2 c1_reach1 (by omega) c1_leg2 c1_step2

/-- The identity-deck trace: the dealer declares a concealed kong of 1m,
draws the replacement (a dragon), discards it, and the other three players
pass the discard. -/
def c4_s0 : Session := (start_hand full_deck_144).getD new_game

def c4_aKong : Action :=
  { type := ActionType.concealed_kong, tile := some (mj 1), combo := none, playerIdx := none }

def c4_s1 : Session := (stepE c4_s0 c4_aKong).getD new_game

def c4_aDiscard : Action :=
  { type := ActionType.discard, tile := some Tile.F, combo := none, playerIdx := none }

def c4_s2 : Session := (stepE c4_s1 c4_aDiscard).getD new_game

def pass_action (p : Nat) : Action :=
  { type := ActionType.pass, tile := none, combo := none, playerIdx := some p }

def c4_s3 : Session := (stepE c4_s2 (pass_action 1)).getD new_game

def c4_s4 : Session := (stepE c4_s3 (pass_action 2)).getD new_game

def c4_s5 : Session := (stepE c4_s4 (pass_action 3)).getD new_game

unseal replace_flowers_for_player in
theorem c4_start : start_hand full_deck_144 = some c4_s0 :=
  option_eq_some_getD _ _ (by decide)

theorem c4_reach0 : Reachable c4_s0 :=
  Reachable.start full_deck_144 c4_s0 (List.Perm.refl full_deck_144) c4_start

unseal replace_flowers_for_player decompose_sets find_pair_loop List.mergeSort List.merge in
theorem c4_leg1 : c4_aKong ∈ get_legal_actions c4_s0 0 := by decide

unseal replace_flowers_for_player draw_replacement in
theorem c4_step1 : stepE c4_s0 c4_aKong = some c4_s1 :=
  option_eq_some_getD _ _ (by decide)

theorem c4_reach1 : Reachable c4_s1 :=
  Reachable.step c4_s0 0 c4_aKong c4_s1 c4_reach0 (by omega) c4_leg1 c4_step1

unseal replace_flowers_for_player draw_replacement decompose_sets find_pair_loop
  List.mergeSort List.merge in
theorem c4_leg2 : c4_aDiscard ∈ get_legal_actions c4_s1 0 := by decide

unseal replace_flowers_for_player draw_replacement in
theorem c4_step2 : stepE c4_s1 c4_aDiscard = some c4_s2 :=
  option_eq_some_getD _ _ (by decide)

theorem c4_reach2 : Reachable c4_s2 :=
  Reachable.step c4_s1 0 c4_aDiscard c4_s2 c4_reach1 (by omega) c4_leg2 c4_step2

unseal replace_flowers_for_player draw_replacement decompose_sets find_pair_loop
  List.mergeSort List.merge in
theorem c4_leg3 : pass_action 1 ∈ get_legal_actions c4_s2 1 := by decide

unseal replace_flowers_for_player draw_replacement in
theorem c4_step3 : stepE c4_s2 (pass_action 1) = some c4_s3 :=
  option_eq_some_getD _ _ (by decide)

theorem c4_reach3 : Reachable c4_s3 :=
  Reachable.step c4_s2 1 (pass_action 1) c4_s3 c4_reach2 (by omega) c4_leg3 c4_step3

unseal replace_flowers_for_player draw_replacement decompose_sets find_pair_loop
  List.mergeSort List.merge in
theorem c4_leg4 : pass_action 2 ∈ get_legal_actions c4_s3 2 := by decide

unseal replace_flowers_for_player draw_replacement in
theorem c4_step4 : stepE c4_s3 (pass_action 2) = some c4_s4 :=
  option_eq_some_getD _ _ (by decide)

theorem c4_reach4 : Reachable c4_s4 :=
  Reachable.step c4_s3 2 (pass_action 2) c4_s4 c4_reach3 (by omega) c4_leg4 c4_step4

unseal replace_flowers_for_player draw_replacement decompose_sets find_pair_loop
  List.mergeSort List.merge in
theorem c4_leg5 : pass_action 3 ∈ get_legal_actions c4_s4 3 := by decide

unseal replace_flowers_for_player draw_replacement in
theorem c4_step5 : stepE c4_s4 (pass_action 3) = some c4_s5 :=
  option_eq_some_getD _ _ (by decide)

theorem c4_reach5 : Reachable c4_s5 :=
  Reachable.step c4_s4 3 (pass_action 3) c4_s5 c4_reach4 (by omega) c4_leg5 c4_step5

/-- A deck arranged so that after the dealer discards 5m, player 1 holds a
chi (6m 7m) and player 2 holds a pong (two 5m) on the same discard. -/
def deck2 : List Tile :=
  (((((full_deck_144.set 17 (mj 7)).set 18 (mj 7)).set 20 (mj 7)).set 24
    (mj 6)).set 25 (mj 5)).set 26 (mj 5)

def c5_s0 : Session := (start_hand deck2).getD new_game

def c5_aDiscard : Action :=
  { type := ActionType.discard, tile := some (mj 5), combo := none, playerIdx := none }

def c5_s1 : Session := (stepE c5_s0 c5_aDiscard).getD new_game

def c5_aChi : Action :=
  { type := ActionType.chi, tile := some (mj 5), combo := some [mj 5, mj 6, mj 7],
    playerIdx := some 1 }

def c5_aPong : Action :=
  { type := ActionType.pong, tile := some (mj 5), combo := none, playerIdx := some 2 }

def c5_s2 : Session := (stepE c5_s1 c5_aChi).getD new_game

unseal replace_flowers_for_player in
theorem c5_start : start_hand deck2 = some c5_s0 :=
  option_eq_some_getD _ _ (by decide)

theorem c5_reach0 : Reachable c5_s0 :=
  Reachable.start deck2 c5_s0 (by decide) c5_start

unseal replace_flowers_for_player decompose_sets find_pair_loop List.mergeSort List.merge in
theorem c5_leg1 : c5_aDiscard ∈ get_legal_actions c5_s0 0 := by decide

unseal replace_flowers_for_player in
theorem c5_step1 : stepE c5_s0 c5_aDiscard = some c5_s1 :=
  option_eq_some_getD _ _ (by decide)

theorem c5_reach1 : Reachable c5_s1 :=
  Reachable.step c5_s0 0 c5_aDiscard c5_s1 c5_reach0 (by omega) c5_leg1 c5_step1

unseal replace_flowers_for_player decompose_sets find_pair_loop List.mergeSort List.merge in
theorem c5_leg_chi : c5_aChi ∈ get_legal_actions c5_s1 1 := by decide

unseal replace_flowers_for_player decompose_sets find_pair_loop List.mergeSort List.merge in
theorem c5_leg_pong : c5_aPong ∈ get_legal_actions c5_s1 2 := by decide

unseal replace_flowers_for_player in
theorem c5_step2 : stepE c5_s1 c5_aChi = some c5_s2 :=
  option_eq_some_getD _ _ (by decide)

/-! ### The claims -/

unseal replace_flowers_for_player in
/-- C1, counterexample.  After player 1 pongs the dealer's discarded 5m the
claimed discard is counted both in the meld and in the discard pool (the
source removes the pong tiles from the hand but leaves the discard in
`discard_pool`; see the comment in `_do_pong`), so the visible tile count of
this reachable state is 145, not 144. -/
theorem C1_counterexample : Reachable c1_s2 ∧ zoneCount c1_s2 = 145 :=
  ⟨c1_reach2, by decide⟩

/-- C1, amended.  In every reachable state the visible tile count equals 144
plus one for each meld formed from a claimed discard (chi, pong, open kong
and added kong; concealed kongs use only hand tiles): each claim leaves the
claimed discard in the pool while also building it into the meld. -/
theorem C1_tile_conservation_amended (s : Session) (h : Reachable s) :
    zoneCount s = 144 + openMeldCount s :=
  (reachable_inv s h).2.2.2.1

theorem C1_witness : zoneCount c1_s2 = 144 + openMeldCount c1_s2 :=
  C1_tile_conservation_amended c1_s2 c1_reach2

/-- Scenario C of the spec, evaluated: hand 111m 222m 333m 444m 99s 55m, win
tile 5m discarded by seat 2, winner seat 1, no melds or flowers, dealer
seat 0, streak 0, round wind East. -/
def scenarioC_hand : List Tile :=
  [mj 1, mj 1, mj 1, mj 2, mj 2, mj 2, mj 3, mj 3, mj 3, mj 4, mj 4, mj 4,
   sj 9, sj 9, mj 5, mj 5]

def scenarioC : ScoringResult :=
  score_hand new_game 1 (mj 5) WinKind.discard scenarioC_hand [] []
    (decompose_hand (scenarioC_hand ++ [mj 5]) []) (some 2)
    false false false false false false false false false false false false

unseal decompose_sets find_pair_loop List.mergeSort List.merge in
/-- C2, counterexample.  Scenario C's yaku do contain 對對胡 at 4 tai, but the
winner also scores 四暗刻 (5) and 門清 (1), so the total is 10 and the payment
map is `{0: 0, 2: 10, 3: 0, 1: -10}` — not the claimed `{1: -4, 2: 4, 0: 0,
3: 0}`: the discarder pays the whole 10-tai total and the winner's entry is
its negation. -/
theorem C2_counterexample :
    (YakuName.duiduihu, 4) ∈ scenarioC.yaku ∧
    paymentOf scenarioC.payments 1 ≠ some (-4) ∧
    paymentOf scenarioC.payments 2 ≠ some 4 := by
  decide

unseal decompose_sets find_pair_loop List.mergeSort List.merge in
/-- C2, amended.  Scenario C in full: yaku `[(四暗刻, 5), (對對胡, 4),
(門清, 1)]`, total 10, payments `{0: 0, 2: 10, 3: 0, 1: -10}`. -/
theorem C2_scenarioC_amended :
    scenarioC.yaku = [(YakuName.sianke, 5), (YakuName.duiduihu, 4),
      (YakuName.menqing, 1)] ∧
    scenarioC.total = 10 ∧
    scenarioC.payments = [(0, 0), (2, 10), (3, 0), (1, -10)] := by
  decide

def c3_aDraw : Action :=
  { type := ActionType.draw, tile := none, combo := none, playerIdx := none }

def c3_s1 : Session := (stepE c4_s0 c3_aDraw).getD new_game

unseal replace_flowers_for_player draw_replacement decompose_sets find_pair_loop
  List.mergeSort List.merge in
/-- C3, counterexample.  In the freshly started identity-deck hand the dealer
has just drawn, so `draw` is in no player's legal-action set; `step` still
executes it, returns no error, and hands the dealer an 18th tile: the session
state is modified by an illegal action. -/
theorem C3_counterexample :
    Reachable c4_s0 ∧ c4_s0.phase = Phase.play ∧
    (c3_aDraw ∉ get_legal_actions c4_s0 0 ∧ c3_aDraw ∉ get_legal_actions c4_s0 1 ∧
     c3_aDraw ∉ get_legal_actions c4_s0 2 ∧ c3_aDraw ∉ get_legal_actions c4_s0 3) ∧
    stepE c4_s0 c3_aDraw = some c3_s1 ∧ c3_s1 ≠ c4_s0 :=
  ⟨c4_reach0, by decide, by decide, option_eq_some_getD _ _ (by decide), by decide⟩

/-- C3, amended.  `step` never validates an action against
`get_legal_actions` and raises no error: the only "rejection" is that outside
the play phase the state is returned unchanged.  During play an action that
is not legal is executed all the same (the counterexample shows one that
changes the state). -/
theorem C3_step_no_validation_amended (s : Session) (a : Action)
    (h : s.phase ≠ Phase.play) : stepE s a = some s := by
  unfold stepE
  rw [if_pos h]

theorem C3_witness : stepE new_game c3_aDraw = some new_game :=
  C3_step_no_validation_amended new_game c3_aDraw (by decide)

unseal replace_flowers_for_player in
/-- C5, counterexample.  A reachable claim window in which player 2 holds a
legal pong on the pending 5m while player 1 holds a legal chi; the session
nevertheless executes the submitted chi — the lower-ranked claim — and
player 2's pong is never formed. -/
theorem C5_counterexample :
    Reachable c5_s1 ∧
    c5_aPong ∈ get_legal_actions c5_s1 2 ∧
    c5_aChi ∈ get_legal_actions c5_s1 1 ∧
    stepE c5_s1 c5_aChi = some c5_s2 ∧
    c5_s2.lastAction = some LastAction.chi ∧
    (getPlayer c5_s2 2).melds = [] :=
  ⟨c5_reach1, c5_leg_pong, c5_leg_chi, c5_step2, by decide, by decide⟩

/-- C5, amended.  `GameSession.step` arbitrates no priority between pending
claims: it dispatches purely on the submitted action's type, so an accepted
chi claim is executed as a chi no matter which higher-ranked claims other
players hold (priority is left to the driver around the session). -/
theorem C5_no_priority_amended (s : Session) (a : Action) (s2 : Session)
    (hph : s.phase = Phase.play) (hat : a.type = ActionType.chi)
    (h : stepE s a = some s2) : s2.lastAction = some LastAction.chi := by
  unfold stepE at h
  rw [if_neg (not_not_intro hph), hat] at h
  replace h : do_chi s a = some s2 := h
  unfold do_chi at h
  rcases hti : a.tile with _ | t <;> rw [hti] at h
  · exact Option.noConfusion h
  simp only [Option.bind_eq_bind', Option.some_bind] at h
  rcases hco : a.combo with _ | combo <;> rw [hco] at h
  · exact Option.noConfusion h
  simp only [Option.some_bind] at h
  rcases hpc : s.pendingDiscarder with _ | dc <;> rw [hpc] at h
  · exact Option.noConfusion h
  simp only [Option.some_bind] at h
  rcases hrc : removeCombo (getPlayer s ((dc + 1) % 4)).hand combo t with _ | h2 <;>
    rw [hrc] at h
  · exact Option.noConfusion h
  simp only [Option.some_bind] at h
  injection h with h
  rw [← h]

unseal replace_flowers_for_player in
theorem C5_witness : c5_s2.lastAction = some LastAction.chi :=
  C5_no_priority_amended c5_s1 c5_aChi c5_s2 (by decide) rfl c5_step2

/-- The hand-size formula exactly as the spec words it, with kongs counted
as four tiles (spec-modelled: the code has no such function). -/
def spec_hand_size (p : Player) : Nat :=
  p.hand.length
    + 3 * (p.melds.filter fun meld =>
        meld.type = MeldType.chi ∨ meld.type = MeldType.pong).length
    + 4 * (p.melds.filter fun meld =>
        meld.type = MeldType.open_kong ∨ meld.type = MeldType.added_kong ∨
        meld.type = MeldType.concealed_kong).length

unseal replace_flowers_for_player draw_replacement in
/-- C4, counterexample.  After the identity-deck trace (concealed kong of
1m, replacement draw, discard, all three opponents pass) the hand rests with
no pending claim; player 0 holds 13 tiles plus one concealed kong, so the
spec's formula gives 13 + 4 = 17 even though player 0 neither just drew
(another player is to act, `just_drew` is false) nor is the dealer before
the first discard (the pool already holds the discard). -/
theorem C4_counterexample :
    Reachable c4_s5 ∧ c4_s5.phase = Phase.play ∧ c4_s5.pendingDiscard = none ∧
    c4_s5.justDrew = false ∧ c4_s5.discardPool ≠ [] ∧ c4_s5.currentPlayer ≠ 0 ∧
    spec_hand_size (getPlayer c4_s5 0) = 17 :=
  ⟨c4_reach5, by decide, by decide, by decide, by decide, by decide, by decide⟩

/-- C4, amended.  In every reachable play state with no pending claim every
player satisfies `|hand| + 3·|melds| = 16` — kongs also count 3, because the
replacement draw immediately restores the extra tile to the hand — except
the current player holds one extra tile exactly when they have just drawn. -/
theorem C4_hand_size_amended (s : Session) (h : Reachable s)
    (hph : s.phase = Phase.play) (hpd : s.pendingDiscard = none)
    (i : Nat) (hi : i < 4) :
    playerForm (getPlayer s i)
      = 16 + (if i = s.currentPlayer ∧ s.justDrew = true then 1 else 0) := by
  obtain ⟨_, _, _, _, hplay⟩ := reachable_inv s h
  rcases hplay hph with ⟨_, _, _, hf⟩ | ⟨d, dc, hd, _⟩
  · exact hf i hi
  · rw [hpd] at hd
    cases hd

unseal replace_flowers_for_player draw_replacement in
theorem C4_witness :
    playerForm (getPlayer c4_s5 0)
      = 16 + (if 0 = c4_s5.currentPlayer ∧ c4_s5.justDrew = true then 1 else 0) :=
  C4_hand_size_amended c4_s5 c4_reach5 (by decide) (by decide) 0 (by omega)

/-- C9.  The replacement draw falls back to the draw wall when the back wall
is empty: with both walls empty the hand ends in the terminal `draw` phase,
and with a non-flower tile at the head of the draw wall that tile moves into
the drawing player's hand. -/
theorem C9_back_wall_fall_through (s : Session) (pidx : Nat)
    (hp : pidx < s.players.length) (hb : s.wallBack = []) :
    (s.wall = [] → draw_replacement s pidx = { s with phase := Phase.draw }) ∧
    (∀ t rest, s.wall = t :: rest → is_flower_tile t = false →
      (draw_replacement s pidx).wall = rest ∧
      (getPlayer (draw_replacement s pidx) pidx).hand
        = (getPlayer s pidx).hand ++ [t] ∧
      (draw_replacement s pidx).phase = s.phase ∧
      (draw_replacement s pidx).justDrew = true) := by
  constructor
  · intro hw
    exact draw_replacement_both_empty s pidx hb hw
  · intro t rest hw hfl
    rw [draw_replacement_wall_cons s pidx t rest hb hw, if_neg (by simp [hfl])]
    refine ⟨rfl, ?_, rfl, rfl⟩
    show ((s.players.set pidx
      { getPlayer s pidx with hand := (getPlayer s pidx).hand ++ [t] }).getD pidx default).hand
      = (getPlayer s pidx).hand ++ [t]
    rw [getD_set_list s.players pidx _ hp pidx, if_pos rfl]

def c9_state : Session := { new_game with wall := [mj 1], phase := Phase.play }

theorem C9_witness :
    (draw_replacement c9_state 0).wall = [] ∧
    (getPlayer (draw_replacement c9_state 0) 0).hand = (getPlayer c9_state 0).hand ++ [mj 1] ∧
    (draw_replacement c9_state 0).phase = c9_state.phase ∧
    (draw_replacement c9_state 0).justDrew = true :=
  (C9_back_wall_fall_through c9_state 0 (by decide) rfl).2 (mj 1) [] rfl rfl

theorem find_claimer_spec (s : Session) (d : Tile) (mc c : Nat)
    (h : find_claimer s d mc = some c) :
    ∃ dc off, s.pendingDiscarder = some dc ∧ (off = 1 ∨ off = 2 ∨ off = 3) ∧
      c = (dc + off) % 4 ∧ mc ≤ (getPlayer s c).hand.count d ∧
      ∀ off2, 1 ≤ off2 → off2 < off →
        (getPlayer s ((dc + off2) % 4)).hand.count d < mc := by
  unfold find_claimer at h
  rcases hdc : s.pendingDiscarder with _ | dc <;> rw [hdc] at h
  · exact Option.noConfusion h
  simp only [Option.bind_eq_bind', Option.some_bind] at h
  set P : Nat → Bool :=
    fun off => decide (mc ≤ (getPlayer s ((dc + off) % 4)).hand.count d) with hP
  by_cases p1 : mc ≤ (getPlayer s ((dc + 1) % 4)).hand.count d
  · have hf : List.find? P [1, 2, 3] = some 1 :=
      List.find?_cons_of_pos _ (by rw [hP]; exact decide_eq_true p1)
    rw [hf] at h
    simp only [Option.some_bind] at h
    injection h with h
    refine ⟨dc, 1, rfl, Or.inl rfl, h.symm, by rw [← h]; exact p1, ?_⟩
    intro off2 h1 h2
    omega
  · have hf1 : List.find? P [1, 2, 3] = List.find? P [2, 3] :=
      List.find?_cons_of_neg _ (by rw [hP]; simpa using p1)
    rw [hf1] at h
    by_cases p2 : mc ≤ (getPlayer s ((dc + 2) % 4)).hand.count d
    · have hf : List.find? P [2, 3] = some 2 :=
        List.find?_cons_of_pos _ (by rw [hP]; exact decide_eq_true p2)
      rw [hf] at h
      simp only [Option.some_bind] at h
      injection h with h
      refine ⟨dc, 2, rfl, Or.inr (Or.inl rfl), h.symm, by rw [← h]; exact p2, ?_⟩
      intro off2 h1 h2
      have he : off2 = 1 := by omega
      subst he
      omega
    · have hf2 : List.find? P [2, 3] = List.find? P [3] :=
        List.find?_cons_of_neg _ (by rw [hP]; simpa using p2)
      rw [hf2] at h
      by_cases p3 : mc ≤ (getPlayer s ((dc + 3) % 4)).hand.count d
      · have hf : List.find? P [3] = some 3 :=
          List.find?_cons_of_pos _ (by rw [hP]; exact decide_eq_true p3)
        rw [hf] at h
        simp only [Option.some_bind] at h
        injection h with h
        refine ⟨dc, 3, rfl, Or.inr (Or.inr rfl), h.symm, by rw [← h]; exact p3, ?_⟩
        intro off2 h1 h2
        have he : off2 = 1 ∨ off2 = 2 := by omega
        rcases he with rfl | rfl <;> omega
      · have hf3 : List.find? P [3] = List.find? P [] :=
          List.find?_cons_of_neg _ (by rw [hP]; simpa using p3)
        rw [hf3] at h
        exact Option.noConfusion h

/-- C10.  `_do_pong` and `_do_open_kong` ignore the submitted action entirely;
the claimer is recomputed by `_find_claimer` as the first player
counter-clockwise from the discarder holding at least 2 (pong) respectively
3 (kong) copies of the pending discard, and the meld is assigned to that
player — who need not be the submitter. -/
theorem C10_claimer_selection :
    (∀ s : Session, ∀ a a2 : Action, do_pong s a = do_pong s a2) ∧
    (∀ s : Session, ∀ a a2 : Action, do_open_kong s a = do_open_kong s a2) ∧
    (∀ s : Session, ∀ d : Tile, ∀ mc c : Nat, find_claimer s d mc = some c →
      ∃ dc off, s.pendingDiscarder = some dc ∧ (off = 1 ∨ off = 2 ∨ off = 3) ∧
        c = (dc + off) % 4 ∧ mc ≤ (getPlayer s c).hand.count d ∧
        ∀ off2, 1 ≤ off2 → off2 < off →
          (getPlayer s ((dc + off2) % 4)).hand.count d < mc) ∧
    (∀ s : Session, ∀ a : Action, ∀ s2 : Session, s.players.length = 4 →
      do_pong s a = some s2 →
      ∃ d dc c, s.pendingDiscard = some d ∧ s.pendingDiscarder = some dc ∧
        find_claimer s d 2 = some c ∧ s2.currentPlayer = c ∧
        (getPlayer s2 c).melds = (getPlayer s c).melds ++
          [{ type := MeldType.pong, tiles := [d, d, d], fromPlayer := some dc }]) ∧
    (∀ s : Session, ∀ a : Action, ∀ s2 : Session, ∀ d : Tile, ∀ dc : Nat,
      s.players.length = 4 → s.subPhase = SubPhase.claim →
      s.pendingDiscard = some d → s.pendingDiscarder = some dc →
      do_open_kong s a = some s2 →
      ∃ c, find_claimer s d 3 = some c ∧ s2.currentPlayer = c ∧
        (getPlayer s2 c).melds = (getPlayer s c).melds ++
          [{ type := MeldType.open_kong, tiles := [d, d, d, d],
             fromPlayer := some dc }]) := by
  refine ⟨fun s a a2 => rfl, fun s a a2 => rfl, find_claimer_spec, ?_, ?_⟩
  · intro s a s2 h4 h
    unfold do_pong at h
    rcases hpd : s.pendingDiscard with _ | d <;> rw [hpd] at h
    · exact Option.noConfusion h
    simp only [Option.bind_eq_bind', Option.some_bind] at h
    rcases hpc : s.pendingDiscarder with _ | dc <;> rw [hpc] at h
    · exact Option.noConfusion h
    simp only [Option.some_bind] at h
    rcases hfc : find_claimer s d 2 with _ | c <;> rw [hfc] at h
    · exact Option.noConfusion h
    simp only [Option.some_bind] at h
    rcases hrt : removeTimes (getPlayer s c).hand d 2 with _ | h2 <;> rw [hrt] at h
    · exact Option.noConfusion h
    simp only [Option.some_bind] at h
    injection h with h
    have hc := find_claimer_lt s d 2 c hfc
    refine ⟨d, dc, c, rfl, rfl, hfc, by rw [← h], ?_⟩
    rw [← h]
    show ((s.players.set c _).getD c default).melds = _
    rw [getD_set_list s.players c _ (by omega) c, if_pos rfl]
  · intro s a s2 d dc h4 hsub hpd hpc h
    unfold do_open_kong at h
    rw [hpd, hpc] at h
    simp only [] at h
    rw [if_pos hsub] at h
    simp only [Option.bind_eq_bind', Option.some_bind] at h
    rcases hfc : find_claimer s d 3 with _ | c <;> rw [hfc] at h
    · exact Option.noConfusion h
    simp only [Option.some_bind] at h
    rcases hrt : removeTimes (getPlayer s c).hand d 3 with _ | h2 <;> rw [hrt] at h
    · exact Option.noConfusion h
    simp only [Option.some_bind] at h
    injection h with h
    have hc := find_claimer_lt s d 3 c hfc
    set npl : Player :=
      { getPlayer s c with
        hand := h2
        melds := (getPlayer s c).melds ++
          [{ type := MeldType.open_kong, tiles := [d, d, d, d],
             fromPlayer := some dc }] } with hnpl
    set s1 : Session :=
      { s with
        players := s.players.set c npl
        currentPlayer := c
        lastAction := some LastAction.openKong
        pendingDiscard := none
        pendingDiscarder := none
        passedPlayers := []
        justDrew := false
        subPhase := SubPhase.activeTurn } with hs1
    replace h : draw_replacement s1 c = s2 := h
    obtain ⟨z1, z2, z3, z4, z5, z6, z7, z8⟩ :=
      draw_replacement_spec s1 c (by simp [hs1, h4]) hc
    have hgp : getPlayer s1 c = npl := by
      show (s.players.set c npl).getD c default = npl
      rw [getD_set_list s.players c npl (by omega) c, if_pos rfl]
    refine ⟨c, rfl, ?_, ?_⟩
    · rw [← h, z5]
    · rw [← h, z3 c hc, hgp]

def c10_probe : Action :=
  { type := ActionType.pong, tile := none, combo := none, playerIdx := some 3 }

def c10_s2 : Session := (do_pong c1_s1 c10_probe).getD new_game

unseal replace_flowers_for_player in
theorem C10_witness :
    ∃ d dc c, c1_s1.pendingDiscard = some d ∧ c1_s1.pendingDiscarder = some dc ∧
      find_claimer c1_s1 d 2 = some c ∧ c10_s2.currentPlayer = c ∧
      (getPlayer c10_s2 c).melds = (getPlayer c1_s1 c).melds ++
        [{ type := MeldType.pong, tiles := [d, d, d], fromPlayer := some dc }] :=
  C10_claimer_selection.2.2.2.1 c1_s1 c10_probe c10_s2 (by decide)
    (option_eq_some_getD _ _ (by decide))

/-! ### C8: the decomposer returns a permutation of its input -/

theorem cons_erase_perm {α : Type} [DecidableEq α] (l : List α) (a : α)
    (ha : a ∈ l) : (a :: l.erase a).Perm l :=
  (List.perm_cons_erase ha).symm

theorem decompose_sets_zero (tiles : List Tile) (found : List (List Tile)) :
    decompose_sets tiles 0 found = if tiles = [] then some found else none := by
  simp [decompose_sets.eq_def]

theorem decompose_sets_cons_num (su : Suit) (v : Nat) (rest : List Tile) (sn : Int)
    (found : List (List Tile)) (hz : sn ≠ 0) :
    decompose_sets (Tile.num su v :: rest) sn found =
      (match (if (Tile.num su v :: rest).count (Tile.num su v) ≥ 3 then
          decompose_sets ((((Tile.num su v :: rest).erase (Tile.num su v)).erase
              (Tile.num su v)).erase (Tile.num su v)) (sn - 1)
            (found ++ [[Tile.num su v, Tile.num su v, Tile.num su v]])
        else none) with
       | some r => some r
       | none =>
         if v ≤ 7 then
           if Tile.num su (v + 1) ∈ Tile.num su v :: rest ∧
               Tile.num su (v + 2) ∈ Tile.num su v :: rest then
             decompose_sets ((((Tile.num su v :: rest).erase (Tile.num su v)).erase
                 (Tile.num su (v + 1))).erase (Tile.num su (v + 2))) (sn - 1)
               (found ++ [[Tile.num su v, Tile.num su (v + 1), Tile.num su (v + 2)]])
           else none
         else none) := by
  rw [decompose_sets.eq_def, if_neg hz]

theorem decompose_sets_cons_other (first : Tile) (rest : List Tile) (sn : Int)
    (found : List (List Tile)) (hz : sn ≠ 0) (hnum : ∀ su v, first ≠ Tile.num su v) :
    decompose_sets (first :: rest) sn found =
      (match (if (first :: rest).count first ≥ 3 then
          decompose_sets ((((first :: rest).erase first).erase first).erase first) (sn - 1)
            (found ++ [[first, first, first]])
        else none) with
       | some r => some r
       | none => none) := by
  rw [decompose_sets.eq_def, if_neg hz]
  rcases first with ⟨su, v⟩ | _ | _ | _ | _ | _ | _ | _ | fi
  · exact absurd rfl (hnum su v)
  all_goals rfl

theorem triplet_step_perm (ts : List Tile) (first : Tile) (hcnt : ts.count first ≥ 3) :
    ((first :: first :: first ::
      (((ts.erase first).erase first).erase first)) : List Tile).Perm ts := by
  have m1 : first ∈ ts := by
    rw [← List.count_pos_iff_mem]
    omega
  have c1 : (ts.erase first).count first = ts.count first - 1 :=
    List.count_erase_self first ts
  have m2 : first ∈ ts.erase first := by
    rw [← List.count_pos_iff_mem]
    omega
  have c2 : ((ts.erase first).erase first).count first
      = (ts.erase first).count first - 1 := List.count_erase_self _ _
  have m3 : first ∈ (ts.erase first).erase first := by
    rw [← List.count_pos_iff_mem]
    omega
  exact (((cons_erase_perm _ _ m3).cons first).cons first).trans
    (((cons_erase_perm _ _ m2).cons first).trans (cons_erase_perm _ _ m1))

theorem sequence_step_perm (ts : List Tile) (su : Suit) (v : Nat)
    (hf : Tile.num su v ∈ ts) (hm2 : Tile.num su (v + 1) ∈ ts)
    (hm3 : Tile.num su (v + 2) ∈ ts) :
    ((Tile.num su v :: Tile.num su (v + 1) :: Tile.num su (v + 2) ::
      (((ts.erase (Tile.num su v)).erase (Tile.num su (v + 1))).erase
        (Tile.num su (v + 2)))) : List Tile).Perm ts := by
  have m2 : Tile.num su (v + 1) ∈ ts.erase (Tile.num su v) := by
    rw [List.mem_erase_of_ne (by intro he; injection he with h1 h2; omega)]
    exact hm2
  have m3 : Tile.num su (v + 2) ∈ (ts.erase (Tile.num su v)).erase
      (Tile.num su (v + 1)) := by
    rw [List.mem_erase_of_ne (by intro he; injection he with h1 h2; omega),
      List.mem_erase_of_ne (by intro he; injection he with h1 h2; omega)]
    exact hm3
  exact (((cons_erase_perm _ _ m3).cons (Tile.num su (v + 1))).cons
      (Tile.num su v)).trans
    (((cons_erase_perm _ _ m2).cons (Tile.num su v)).trans (cons_erase_perm _ _ hf))

theorem found_step_perm (found : List (List Tile)) (grp rest2 ts : List Tile)
    (hstep : (grp ++ rest2).Perm ts) :
    ((found ++ [grp]).flatten ++ rest2).Perm (found.flatten ++ ts) := by
  rw [List.flatten_append]
  simp only [List.flatten_cons, List.flatten_nil, List.append_nil]
  rw [List.append_assoc]
  exact List.Perm.append_left found.flatten hstep

theorem decompose_sets_perm_n (n : Nat) :
    ∀ (tiles : List Tile) (sn : Int) (found r : List (List Tile)),
      tiles.length ≤ n → decompose_sets tiles sn found = some r →
      r.flatten.Perm (found.flatten ++ tiles) := by
  induction n with
  | zero =>
    intro tiles sn found r hlen h
    rcases tiles with _ | ⟨first, rest⟩
    · by_cases hz : sn = 0
      · subst hz
        rw [decompose_sets_zero, if_pos rfl] at h
        injection h with h
        subst h
        simp
      · rw [decompose_sets.eq_def, if_neg hz] at h
        exact Option.noConfusion h
    · simp at hlen
  | succ k ih =>
    intro tiles sn found r hlen h
    by_cases hz : sn = 0
    · subst hz
      rw [decompose_sets_zero] at h
      by_cases ht : tiles = []
      · rw [if_pos ht] at h
        injection h with h
        subst h
        subst ht
        simp
      · rw [if_neg ht] at h
        exact Option.noConfusion h
    · rcases tiles with _ | ⟨first, rest⟩
      · rw [decompose_sets.eq_def, if_neg hz] at h
        exact Option.noConfusion h
      simp only [List.length_cons] at hlen
      have hlt := length_erase3_lt (first :: rest) first first first
        (List.mem_cons_self _ _)
      simp only [List.length_cons] at hlt
      by_cases hnum : ∃ su v, first = Tile.num su v
      · obtain ⟨su, v, rfl⟩ := hnum
        rw [decompose_sets_cons_num su v rest sn found hz] at h
        by_cases hcnt : (Tile.num su v :: rest).count (Tile.num su v) ≥ 3
        · rw [if_pos hcnt] at h
          rcases hrec : decompose_sets ((((Tile.num su v :: rest).erase
              (Tile.num su v)).erase (Tile.num su v)).erase (Tile.num su v)) (sn - 1)
              (found ++ [[Tile.num su v, Tile.num su v, Tile.num su v]]) with _ | r2 <;>
            rw [hrec] at h
          · replace h : (if v ≤ 7 then
                if Tile.num su (v + 1) ∈ Tile.num su v :: rest ∧
                    Tile.num su (v + 2) ∈ Tile.num su v :: rest then
                  decompose_sets ((((Tile.num su v :: rest).erase (Tile.num su v)).erase
                      (Tile.num su (v + 1))).erase (Tile.num su (v + 2))) (sn - 1)
                    (found ++ [[Tile.num su v, Tile.num su (v + 1), Tile.num su (v + 2)]])
                else none
              else none) = some r := h
            by_cases hle : v ≤ 7
            · rw [if_pos hle] at h
              by_cases hmem : Tile.num su (v + 1) ∈ Tile.num su v :: rest ∧
                  Tile.num su (v + 2) ∈ Tile.num su v :: rest
              · rw [if_pos hmem] at h
                have hlt2 := length_erase3_lt (Tile.num su v :: rest) (Tile.num su v)
                  (Tile.num su (v + 1)) (Tile.num su (v + 2)) (List.mem_cons_self _ _)
                simp only [List.length_cons] at hlt2
                exact (ih _ _ _ _ (by omega) h).trans
                  (found_step_perm found _ _ _
                    (sequence_step_perm (Tile.num su v :: rest) su v
                      (List.mem_cons_self _ _) hmem.1 hmem.2))
              · rw [if_neg hmem] at h
                exact Option.noConfusion h
            · rw [if_neg hle] at h
              exact Option.noConfusion h
          · replace h : some r2 = some r := h
            injection h with h
            subst h
            exact (ih _ _ _ _ (by omega) hrec).trans
              (found_step_perm found _ _ _
                (triplet_step_perm (Tile.num su v :: rest) (Tile.num su v) hcnt))
        · rw [if_neg hcnt] at h
          replace h : (if v ≤ 7 then
              if Tile.num su (v + 1) ∈ Tile.num su v :: rest ∧
                  Tile.num su (v + 2) ∈ Tile.num su v :: rest then
                decompose_sets ((((Tile.num su v :: rest).erase (Tile.num su v)).erase
                    (Tile.num su (v + 1))).erase (Tile.num su (v + 2))) (sn - 1)
                  (found ++ [[Tile.num su v, Tile.num su (v + 1), Tile.num su (v + 2)]])
              else none
            else none) = some r := h
          by_cases hle : v ≤ 7
          · rw [if_pos hle] at h
            by_cases hmem : Tile.num su (v + 1) ∈ Tile.num su v :: rest ∧
                Tile.num su (v + 2) ∈ Tile.num su v :: rest
            · rw [if_pos hmem] at h
              have hlt2 := length_erase3_lt (Tile.num su v :: rest) (Tile.num su v)
                (Tile.num su (v + 1)) (Tile.num su (v + 2)) (List.mem_cons_self _ _)
              simp only [List.length_cons] at hlt2
              exact (ih _ _ _ _ (by omega) h).trans
                (found_step_perm found _ _ _
                  (sequence_step_perm (Tile.num su v :: rest) su v
                    (List.mem_cons_self _ _) hmem.1 hmem.2))
            · rw [if_neg hmem] at h
              exact Option.noConfusion h
          · rw [if_neg hle] at h
            exact Option.noConfusion h
      · have hnum2 : ∀ su v, first ≠ Tile.num su v := by
          intro su v he
          exact hnum ⟨su, v, he⟩
        rw [decompose_sets_cons_other first rest sn found hz hnum2] at h
        by_cases hcnt : (first :: rest).count first ≥ 3
        · rw [if_pos hcnt] at h
          rcases hrec : decompose_sets ((((first :: rest).erase first).erase first).erase
              first) (sn - 1) (found ++ [[first, first, first]]) with _ | r2 <;>
            rw [hrec] at h
          · exact Option.noConfusion h
          · replace h : some r2 = some r := h
            injection h with h
            subst h
            exact (ih _ _ _ _ (by omega) hrec).trans
              (found_step_perm found _ _ _
                (triplet_step_perm (first :: rest) first hcnt))
        · rw [if_neg hcnt] at h
          exact Option.noConfusion h

theorem decompose_sets_perm (tiles : List Tile) (sn : Int)
    (found r : List (List Tile)) (h : decompose_sets tiles sn found = some r) :
    r.flatten.Perm (found.flatten ++ tiles) :=
  decompose_sets_perm_n tiles.length tiles sn found r (le_refl _) h

theorem find_pair_loop_perm_n (tiles : List Tile) (setsNeeded : Int) (n : Nat) :
    ∀ (i : Nat) (seen : List Tile) (r : List (List Tile)) (pr : List Tile),
      tiles.length - i ≤ n →
      find_pair_loop tiles setsNeeded i seen = some (r, pr) →
      (r.flatten ++ pr).Perm tiles := by
  induction n with
  | zero =>
    intro i seen r pr hn h
    rw [find_pair_loop.eq_def, dif_neg (by omega)] at h
    exact Option.noConfusion h
  | succ k ih =>
    intro i seen r pr hn h
    rw [find_pair_loop.eq_def] at h
    by_cases hi : i < tiles.length
    · rw [dif_pos hi] at h
      simp only [] at h
      by_cases hmem : tiles.getD i default ∈ seen
      · rw [if_pos hmem] at h
        exact ih (i + 1) seen r pr (by omega) h
      · rw [if_neg hmem] at h
        by_cases hpair : i + 1 < tiles.length ∧
            tiles.getD (i + 1) default = tiles.getD i default
        · rw [if_pos hpair] at h
          rcases hrec : decompose_sets (tiles.take i ++ tiles.drop (i + 2))
              setsNeeded [] with _ | r2 <;> rw [hrec] at h
          · replace h : find_pair_loop tiles setsNeeded (i + 1)
                (tiles.getD i default :: seen) = some (r, pr) := h
            exact ih _ _ _ _ (by omega) h
          · replace h : some (r2, [tiles.getD i default, tiles.getD i default])
                = some (r, pr) := h
            injection h with h
            injection h with h1 h2
            subst h1
            subst h2
            set t := tiles.getD i default with hti
            have hperm := decompose_sets_perm _ _ _ r2 hrec
            simp only [List.flatten_nil, List.nil_append] at hperm
            have hdrop1 : tiles.drop i = t :: tiles.drop (i + 1) := by
              rw [hti, List.getD_eq_getElem tiles default hi]
              exact List.drop_eq_getElem_cons hi
            have hdrop2 : tiles.drop (i + 1) = t :: tiles.drop (i + 2) := by
              have h3 := List.drop_eq_getElem_cons hpair.1
              rw [h3, ← List.getD_eq_getElem tiles default hpair.1, hpair.2]
            have hsplit : tiles.take i ++ (t :: t :: tiles.drop (i + 2)) = tiles := by
              rw [← hdrop2, ← hdrop1]
              exact List.take_append_drop i tiles
            have p1 : (r2.flatten ++ [t, t]).Perm
                ((tiles.take i ++ tiles.drop (i + 2)) ++ [t, t]) := hperm.append_right _
            have p2 : ((tiles.take i ++ tiles.drop (i + 2)) ++ [t, t]).Perm
                (([t, t] ++ tiles.take i) ++ tiles.drop (i + 2)) := by
              have p2a : ((tiles.take i ++ tiles.drop (i + 2)) ++ [t, t]).Perm
                  ([t, t] ++ (tiles.take i ++ tiles.drop (i + 2))) := List.perm_append_comm
              rw [← List.append_assoc] at p2a
              exact p2a
            have p3 : (([t, t] ++ tiles.take i) ++ tiles.drop (i + 2)).Perm
                ((tiles.take i ++ [t, t]) ++ tiles.drop (i + 2)) :=
              List.Perm.append_right _ List.perm_append_comm
            have p4 : (tiles.take i ++ [t, t]) ++ tiles.drop (i + 2) = tiles := by
              rw [List.append_assoc]
              exact hsplit
            exact ((p1.trans p2).trans p3).trans (by rw [p4])
        · rw [if_neg hpair] at h
          exact ih _ _ _ _ (by omega) h
    · rw [dif_neg hi] at h
      exact Option.noConfusion h

theorem find_pair_loop_perm (tiles : List Tile) (setsNeeded : Int) (i : Nat)
    (seen : List Tile) (r : List (List Tile)) (pr : List Tile)
    (h : find_pair_loop tiles setsNeeded i seen = some (r, pr)) :
    (r.flatten ++ pr).Perm tiles :=
  find_pair_loop_perm_n tiles setsNeeded (tiles.length - i) i seen r pr (le_refl _) h

theorem find_decomposition_perm (tiles : List Tile) (setsNeeded : Int)
    (r : List (List Tile)) (pr : List Tile)
    (h : find_decomposition tiles setsNeeded = some (r, pr)) :
    (r.flatten ++ pr).Perm tiles := by
  unfold find_decomposition at h
  by_cases hz : setsNeeded = 0
  · rw [if_pos hz] at h
    rcases tiles with _ | ⟨a, _ | ⟨b, _ | ⟨c, rest⟩⟩⟩ <;>
      simp only [] at h
    · exact Option.noConfusion h
    · exact Option.noConfusion h
    · by_cases hab : a = b
      · rw [if_pos hab] at h
        injection h with h
        injection h with h1 h2
        subst h1
        subst h2
        simp [hab]
      · rw [if_neg hab] at h
        exact Option.noConfusion h
    · exact Option.noConfusion h
  · rw [if_neg hz] at h
    by_cases hlen : (tiles.length : Int) ≠ setsNeeded * 3 + 2
    · rw [if_pos hlen] at h
      exact Option.noConfusion h
    · rw [if_neg hlen] at h
      exact find_pair_loop_perm tiles setsNeeded 0 [] r pr h

/-- C8.  Whenever `decompose_hand` finds a decomposition, the tiles of the
returned sets together with the pair are a permutation of the input hand. -/
theorem C8_decomposer_roundtrip (hand : List Tile) (melds : List Meld)
    (sets : List (List Tile)) (pair : List Tile)
    (h : decompose_hand hand melds = some (sets, pair)) :
    (sets.flatten ++ pair).Perm hand := by
  unfold decompose_hand at h
  have h1 := find_decomposition_perm _ _ _ _ h
  exact h1.trans (List.mergeSort_perm hand _)

def c8_dec : List (List Tile) × List Tile :=
  (decompose_hand (scenarioC_hand ++ [mj 5]) []).getD ([], [])

unseal decompose_sets find_pair_loop List.mergeSort List.merge in
theorem C8_witness :
    (c8_dec.1.flatten ++ c8_dec.2).Perm (scenarioC_hand ++ [mj 5]) :=
  C8_decomposer_roundtrip (scenarioC_hand ++ [mj 5]) [] c8_dec.1 c8_dec.2
    (option_eq_some_getD _ ([], []) (by decide))

end Mahjong
